import Mathlib

set_option maxHeartbeats 1000000

/-!
Verification development for the juju worker dependency engine specification
and the LXD provider configuration code.

The dependency-engine package itself (`agent/engine`) is not present under
`src/` — only its tests and callers are (for example
`cmd/jujud-controller/agent/machine_test.go`, which patches
`engine.EngineErrorDelay`).  The scheduler, node table, resource context and
backoff policy are therefore modelled from the specification, faithfully to
its words; every such definition carries a doc comment starting
"Modelled from the spec:".  The LXD provider configuration
(`internal/provider/lxd/config.go`) is present under `src/` and is embedded
directly from the source.
-/

namespace JujuSpec

namespace Engine

/-- Modelled from the spec: per-node lifecycle states of the worker dependency
engine scheduler (§4.4): `Stopped → Starting → Started → Stopping → Stopped`,
with the `Error` substate recorded alongside `Stopped` in the node's last
error field. -/
inductive NodeState where
  | stopped
  | starting
  | started
  | stopping
deriving DecidableEq, Repr

/-- Modelled from the spec: a Manifold (§3) declares its named inputs and an
output function used to type-narrow the running worker for a dependent.
Workers are opaque handles, modelled as numeric identifiers; output values and
error values are modelled as numbers. -/
structure Manifold where
  inputs : List String
  output : Nat → Except Nat Nat

/-- Modelled from the spec: a Node (§3) wraps the manifold, the current worker
instance (present exactly while Started), the last recorded error, and a
generation counter bumped at each new start attempt and used to discard stale
asynchronous completions. -/
structure Node where
  manifold : Manifold
  state : NodeState
  worker : Option Nat
  lastError : Option Nat
  generation : Nat

/-- Modelled from the spec: the Engine (§3) owns the name-keyed node table and
its own lifecycle flag; `killed` becomes true once `Kill()` is processed. -/
structure EngineState where
  nodes : List (String × Node)
  killed : Bool

def initState : EngineState := ⟨[], false⟩

/-- Look up the node installed under a name. -/
def lookupNode (s : EngineState) (n : String) : Option Node :=
  (s.nodes.find? (fun p => decide (p.1 = n))).map Prod.snd

/-- Rewrite every node value in place, keeping keys and order. -/
def mapValues (s : EngineState) (h : String → Node → Node) : EngineState :=
  { s with nodes := s.nodes.map (fun p => (p.1, h p.1 p.2)) }

/-- Apply `f` to the node stored under key `n`, leaving other keys alone. -/
def updateNode (s : EngineState) (n : String) (f : Node → Node) : EngineState :=
  mapValues s (fun k nd => if k = n then f nd else nd)

theorem lookup_mapValues (s : EngineState) (h : String → Node → Node) (n : String) :
    lookupNode (mapValues s h) n = (lookupNode s n).map (h n) := by
  unfold lookupNode mapValues
  simp only [List.find?_map]
  have hp : ((fun p : String × Node => decide (p.1 = n)) ∘
      (fun p : String × Node => (p.1, h p.1 p.2)))
      = (fun p : String × Node => decide (p.1 = n)) := by
    funext p; rfl
  rw [hp]
  cases hf : s.nodes.find? (fun p => decide (p.1 = n)) with
  | none => rfl
  | some p =>
    have hpn : p.1 = n := by simpa using List.find?_some hf
    simp [Option.map, hpn]

theorem lookup_update_self (s : EngineState) (n : String) (f : Node → Node) :
    lookupNode (updateNode s n f) n = (lookupNode s n).map f := by
  rw [updateNode, lookup_mapValues]
  cases lookupNode s n <;> simp

theorem lookup_update_other (s : EngineState) (n m : String) (f : Node → Node)
    (hmn : m ≠ n) : lookupNode (updateNode s n f) m = lookupNode s m := by
  rw [updateNode, lookup_mapValues]
  cases lookupNode s m <;> simp [hmn]

theorem lookup_append_of_some (s : EngineState) (x : String × Node) (k : Bool)
    (m : String) (nd : Node) (hm : lookupNode s m = some nd) :
    lookupNode { nodes := s.nodes ++ [x], killed := k } m = some nd := by
  unfold lookupNode at *
  obtain ⟨p, hp, hsnd⟩ := Option.map_eq_some'.mp hm
  rw [List.find?_append, hp]
  simp [hsnd]

theorem lookup_append_self (s : EngineState) (n : String) (nd : Node) (k : Bool)
    (hm : lookupNode s n = none) :
    lookupNode { nodes := s.nodes ++ [(n, nd)], killed := k } n = some nd := by
  unfold lookupNode at *
  have hnone : s.nodes.find? (fun p => decide (p.1 = n)) = none := by
    cases hf : s.nodes.find? (fun p => decide (p.1 = n)) with
    | none => rfl
    | some p => rw [hf] at hm; simp at hm
  rw [List.find?_append, hnone]
  simp [List.find?]

theorem lookup_append_other (s : EngineState) (n : String) (nd : Node) (k : Bool)
    (m : String) (hmn : m ≠ n) :
    lookupNode { nodes := s.nodes ++ [(n, nd)], killed := k } m = lookupNode s m := by
  unfold lookupNode
  rw [List.find?_append]
  have : List.find? (fun p => decide (p.1 = m)) [(n, nd)] = none := by
    simp [List.find?, Ne.symm hmn]
  rw [this]
  cases s.nodes.find? (fun p => decide (p.1 = m)) <;> simp

theorem lookup_mem {s : EngineState} {n : String} {nd : Node}
    (h : lookupNode s n = some nd) : (n, nd) ∈ s.nodes := by
  unfold lookupNode at h
  obtain ⟨p, hp, hsnd⟩ := Option.map_eq_some'.mp h
  have hmem := List.mem_of_find?_eq_some hp
  have hkey : p.1 = n := by simpa using List.find?_some hp
  have hpe : p = (n, nd) := by
    cases p with
    | mk a b => simp_all
  rwa [hpe] at hmem

/-- The node table never stores two nodes under the same name. -/
def keysOk (s : EngineState) : Prop := (s.nodes.map Prod.fst).Nodup

theorem keysOk_mapValues {s : EngineState} {h : String → Node → Node}
    (hk : keysOk s) : keysOk (mapValues s h) := by
  unfold keysOk mapValues at *
  rw [List.map_map]
  have he : (Prod.fst ∘ fun p : String × Node => (p.1, h p.1 p.2))
      = (Prod.fst : String × Node → String) := by
    funext p; rfl
  rwa [he]

theorem keysOk_append {s : EngineState} {n : String} {nd : Node} {k : Bool}
    (hk : keysOk s) (hm : lookupNode s n = none) :
    keysOk { nodes := s.nodes ++ [(n, nd)], killed := k } := by
  unfold keysOk at *
  rw [List.map_append]
  have hnotin : n ∉ s.nodes.map Prod.fst := by
    intro hin
    obtain ⟨p, hp, hfst⟩ := List.mem_map.mp hin
    unfold lookupNode at hm
    have hfind : s.nodes.find? (fun q => decide (q.1 = n)) = none := by
      cases hf : s.nodes.find? (fun q => decide (q.1 = n)) with
      | none => rfl
      | some q => rw [hf] at hm; simp at hm
    have := List.find?_eq_none.mp hfind p hp
    simp [hfst] at this
  refine List.Nodup.append hk (by simp) ?_
  intro a ha hb
  simp only [List.map_cons, List.map_nil, List.mem_singleton] at hb
  exact hnotin (hb ▸ ha)

theorem find?_unique_aux {n : String} {nd nd' : Node} :
    ∀ l : List (String × Node), (l.map Prod.fst).Nodup →
      (l.find? (fun p => decide (p.1 = n))).map Prod.snd = some nd →
      (n, nd') ∈ l → nd' = nd := by
  intro l
  induction l with
  | nil => intro _ _ hmem; simp at hmem
  | cons q l ih =>
    intro hk h hmem
    rw [List.map_cons, List.nodup_cons] at hk
    by_cases hq : q.1 = n
    · rw [List.find?_cons_of_pos _ (by simp [hq])] at h
      simp only [Option.map_some'] at h
      rcases List.mem_cons.mp hmem with he | hl
      · rw [← he] at h; simpa using h
      · exact absurd (by rw [hq]; exact List.mem_map.mpr ⟨(n, nd'), hl, rfl⟩) hk.1
    · rw [List.find?_cons_of_neg _ (by simp [hq])] at h
      rcases List.mem_cons.mp hmem with he | hl
      · exact absurd (show q.1 = n by rw [← he]) hq
      · exact ih hk.2 h hl

/-- Under unique keys, any table entry with the looked-up name is the
looked-up node. -/
theorem mem_eq_of_keysOk {s : EngineState} {n : String} {nd nd' : Node}
    (hk : keysOk s) (h : lookupNode s n = some nd)
    (hmem : (n, nd') ∈ s.nodes) : nd' = nd :=
  find?_unique_aux s.nodes hk h hmem

/-- A name is Started when a node is installed under it and is in the
Started state. -/
def isStarted (s : EngineState) (n : String) : Bool :=
  match lookupNode s n with
  | some nd => decide (nd.state = NodeState.started)
  | none => false

/-- All declared inputs of a manifold are Started. -/
def inputsStarted (s : EngineState) (m : Manifold) : Bool :=
  m.inputs.all (isStarted s)

theorem isStarted_true_iff {s : EngineState} {n : String} :
    isStarted s n = true ↔
      ∃ nd, lookupNode s n = some nd ∧ nd.state = NodeState.started := by
  unfold isStarted
  cases h : lookupNode s n with
  | none => simp
  | some nd => simp [h]

theorem inputsStarted_true_iff {s : EngineState} {m : Manifold} :
    inputsStarted s m = true ↔ ∀ i ∈ m.inputs, isStarted s i = true := by
  unfold inputsStarted
  exact List.all_eq_true

theorem inputsStarted_congr {s t : EngineState} (m : Manifold)
    (h : ∀ i, isStarted s i = isStarted t i) :
    inputsStarted s m = inputsStarted t m := by
  unfold inputsStarted
  have : isStarted s = isStarted t := funext h
  rw [this]

theorem inputsStarted_mono {s t : EngineState} (m : Manifold)
    (h : ∀ i, isStarted s i = true → isStarted t i = true)
    (hs : inputsStarted s m = true) : inputsStarted t m = true := by
  rw [inputsStarted_true_iff] at *
  exact fun i hi => h i (hs i hi)

/-- Modelled from the spec: the scheduler hands the worker of a node leaving
Started to its stop supervisor (`Kill()` then `Wait()`); the node keeps no
worker reference while Stopping. -/
def stopNode (nd : Node) : Node :=
  { nd with state := NodeState.stopping, worker := none }

/-- Modelled from the spec: a freshly installed node starts Stopped with no
worker, no recorded error and generation 0. -/
def freshNode (m : Manifold) : Node :=
  ⟨m, NodeState.stopped, none, none, 0⟩

/-- A node that must be bounced: it is Started but one of its declared inputs
is no longer Started. -/
def demotable (s : EngineState) (nd : Node) : Prop :=
  nd.state = NodeState.started ∧ inputsStarted s nd.manifold = false

instance (s : EngineState) (nd : Node) : Decidable (demotable s nd) := by
  unfold demotable; infer_instance

/-- Modelled from the spec: one sweep of the dependency cascade (§4.4) — every
Started node one of whose inputs has left Started is transitioned to Stopping
(its worker is handed to a stop supervisor). -/
def demoteFn (s : EngineState) (nd : Node) : Node :=
  if demotable s nd then stopNode nd else nd

def demoteOnce (s : EngineState) : EngineState :=
  mapValues s (fun _ nd => demoteFn s nd)

/-- Iterate the cascade sweep. -/
def demote : Nat → EngineState → EngineState
  | 0, s => s
  | k + 1, s => demote k (demoteOnce s)

/-- Number of Started entries of a node table. -/
def countS (l : List (String × Node)) : Nat :=
  (l.filter (fun p => decide (p.2.state = NodeState.started))).length

def countStarted (s : EngineState) : Nat := countS s.nodes

/-- Modelled from the spec: the transitive, bottom-up stop cascade (§4.4) run
to its fixed point within one scheduler step; the Started-node count bounds
the number of sweeps needed. -/
def stabilize (s : EngineState) : EngineState := demote (countStarted s) s

theorem demoteOnce_eq_self {s : EngineState}
    (h : ∀ p ∈ s.nodes, ¬ demotable s p.2) : demoteOnce s = s := by
  unfold demoteOnce mapValues
  have hmap : s.nodes.map (fun p => (p.1, demoteFn s p.2)) = s.nodes := by
    rw [List.map_congr_left (g := fun p => p), List.map_id']
    intro p hp
    unfold demoteFn
    rw [if_neg (h p hp)]
  rw [hmap]

theorem demote_eq_self {s : EngineState} (h : demoteOnce s = s) :
    ∀ k, demote k s = s := by
  intro k
  induction k with
  | zero => rfl
  | succ k ih => rw [demote, h, ih]

/-- The per-node table invariant the cascade establishes: every Started node
has all of its declared inputs Started (topological precondition §3). -/
def topOk (s : EngineState) : Prop :=
  ∀ p ∈ s.nodes, p.2.state = NodeState.started →
    inputsStarted s p.2.manifold = true

theorem topOk_of_no_demotable {s : EngineState}
    (h : ∀ p ∈ s.nodes, ¬ demotable s p.2) : topOk s := by
  intro p hp hst
  have hnd := h p hp
  unfold demotable at hnd
  cases hb : inputsStarted s p.2.manifold with
  | false => exact absurd ⟨hst, hb⟩ hnd
  | true => rfl

theorem countS_cons (q : String × Node) (l : List (String × Node)) :
    countS (q :: l) =
      (if q.2.state = NodeState.started then 1 else 0) + countS l := by
  unfold countS
  rw [List.filter_cons]
  by_cases h : q.2.state = NodeState.started <;> simp [h] <;> omega

theorem countS_map_le (l : List (String × Node)) (g : String × Node → String × Node)
    (hg : ∀ p ∈ l, (g p).2.state = NodeState.started → p.2.state = NodeState.started) :
    countS (l.map g) ≤ countS l := by
  induction l with
  | nil => simp [countS]
  | cons q l ih =>
    have hg' : ∀ p ∈ l, (g p).2.state = NodeState.started →
        p.2.state = NodeState.started :=
      fun p hp => hg p (List.mem_cons_of_mem q hp)
    have htail := ih hg'
    rw [List.map_cons, countS_cons, countS_cons]
    by_cases hgq : (g q).2.state = NodeState.started
    · have hq := hg q (List.mem_cons_self q l) hgq
      rw [if_pos hgq, if_pos hq]
      omega
    · rw [if_neg hgq]
      by_cases hq : q.2.state = NodeState.started
      · rw [if_pos hq]; omega
      · rw [if_neg hq]; omega

theorem countS_map_lt (l : List (String × Node)) (g : String × Node → String × Node)
    (hg : ∀ p ∈ l, (g p).2.state = NodeState.started → p.2.state = NodeState.started)
    (p : String × Node) (hp : p ∈ l) (hps : p.2.state = NodeState.started)
    (hgp : ¬ (g p).2.state = NodeState.started) :
    countS (l.map g) < countS l := by
  induction l with
  | nil => simp at hp
  | cons q l ih =>
    have hg' : ∀ r ∈ l, (g r).2.state = NodeState.started →
        r.2.state = NodeState.started :=
      fun r hr => hg r (List.mem_cons_of_mem q hr)
    rw [List.map_cons, countS_cons, countS_cons]
    rcases List.mem_cons.mp hp with he | hl
    · subst he
      rw [if_neg hgp, if_pos hps]
      have := countS_map_le l g hg'
      omega
    · have hlt := ih hg' hl
      by_cases hgq : (g q).2.state = NodeState.started
      · have hq := hg q (List.mem_cons_self q l) hgq
        rw [if_pos hgq, if_pos hq]
        omega
      · rw [if_neg hgq]
        by_cases hq : q.2.state = NodeState.started
        · rw [if_pos hq]; omega
        · rw [if_neg hq]; omega

theorem countStarted_demoteOnce_lt {s : EngineState}
    (h : ∃ p ∈ s.nodes, demotable s p.2) :
    countStarted (demoteOnce s) < countStarted s := by
  obtain ⟨p, hp, hdem⟩ := h
  unfold countStarted demoteOnce mapValues
  apply countS_map_lt s.nodes _ ?_ p hp hdem.1
  · show ¬ (demoteFn s p.2).state = NodeState.started
    unfold demoteFn
    rw [if_pos hdem]
    simp [stopNode]
  · intro q hq hgq
    by_cases hd : demotable s q.2
    · exfalso
      revert hgq
      show ¬ ((q.1, demoteFn s q.2).2.state = NodeState.started)
      unfold demoteFn
      rw [if_pos hd]
      simp [stopNode]
    · revert hgq
      show (q.1, demoteFn s q.2).2.state = NodeState.started → _
      unfold demoteFn
      rw [if_neg hd]
      exact id

theorem topOk_demote : ∀ (k : Nat) (s : EngineState), countStarted s ≤ k →
    topOk (demote k s) := by
  intro k
  induction k with
  | zero =>
    intro s hc
    by_cases hall : ∀ p ∈ s.nodes, ¬ demotable s p.2
    · exact topOk_of_no_demotable hall
    · exfalso
      push_neg at hall
      obtain ⟨p, hp, hdem⟩ := hall
      have : 0 < countStarted s := by
        unfold countStarted countS
        have : p ∈ s.nodes.filter (fun p => decide (p.2.state = NodeState.started)) :=
          List.mem_filter.mpr ⟨hp, by simp [hdem.1]⟩
        calc 0 < 1 := Nat.one_pos
          _ ≤ _ := List.length_pos_of_mem this
      omega
  | succ k ih =>
    intro s hc
    by_cases hall : ∀ p ∈ s.nodes, ¬ demotable s p.2
    · have hfix := demoteOnce_eq_self hall
      have : demote (k + 1) s = s := by
        rw [demote, hfix, demote_eq_self hfix]
      rw [this]
      exact topOk_of_no_demotable hall
    · push_neg at hall
      have hlt := countStarted_demoteOnce_lt hall
      rw [demote]
      exact ih (demoteOnce s) (by omega)

theorem topOk_stabilize (s : EngineState) : topOk (stabilize s) :=
  topOk_demote (countStarted s) s (Nat.le_refl _)

/-- Modelled from the spec: the entries of the engine's single internal work
queue (§4.4, §4.5, §5): install requests, start requests produced by
re-evaluation, and the three asynchronous supervisor completion notices — the
start function returned a worker, the start function returned an error, and
the worker's `Wait()` returned — each stamped with the generation of the
attempt it belongs to; plus engine `Kill()`. -/
inductive Event where
  | install (n : String) (m : Manifold)
  | tryStart (n : String)
  | gotStarted (n : String) (gen : Nat) (w : Nat)
  | gotStartError (n : String) (gen : Nat) (e : Nat)
  | gotStopped (n : String) (gen : Nat) (e : Option Nat)
  | kill

/-- Modelled from the spec: re-installing an existing name atomically replaces
the manifold (§3, §4.1); a Started old worker is forced to stop first (it is
handed to a stop supervisor and the node waits in Stopping, at the current
generation, for its `Wait()` to return), while an in-flight start attempt is
superseded by bumping the generation so its completion arrives stale. -/
def replaceNode (m : Manifold) (nd : Node) : Node :=
  match nd.state with
  | NodeState.started =>
      { nd with manifold := m, state := NodeState.stopping, worker := none }
  | NodeState.starting =>
      { nd with manifold := m, state := NodeState.stopped,
                generation := nd.generation + 1 }
  | _ => { nd with manifold := m }

/-- Modelled from the spec: on engine `Kill()` every Started node is
transitioned to Stopping (§4.4 engine shutdown), its worker handed to a stop
supervisor. -/
def killFn (nd : Node) : Node :=
  if nd.state = NodeState.started then stopNode nd else nd

/-- Modelled from the spec: one iteration of the scheduler loop (§4.4, §4.5),
draining one queue entry.  All graph mutation happens here, sequentially:
  * `install` registers a new Stopped node or atomically replaces an existing
    one (stopping its Started worker first and cascading to dependents);
  * `tryStart` fires `Stopped → Starting` only when every input is Started
    and the engine is not shutting down, bumping the generation;
  * `gotStarted` fires `Starting → Started` when the completion is current
    and the inputs are still all Started; a completion for a node the engine
    no longer wants running sends the fresh worker straight to Stopping;
  * `gotStartError` fires `Starting → Stopped(Error)`;
  * `gotStopped` fires `Stopping → Stopped`, or records a spontaneous worker
    death of a Started node and cascades its dependents;
  * completions whose generation does not match the node's are ignored;
  * `kill` stops every Started node and marks the engine as stopping. -/
def processEvent (s : EngineState) (e : Event) : EngineState :=
  match e with
  | Event.install n m =>
    if s.killed then s else
    match lookupNode s n with
    | none => { nodes := s.nodes ++ [(n, freshNode m)], killed := s.killed }
    | some _ => stabilize (updateNode s n (replaceNode m))
  | Event.tryStart n =>
    if s.killed then s else
    match lookupNode s n with
    | none => s
    | some nd =>
      if nd.state = NodeState.stopped ∧ inputsStarted s nd.manifold = true then
        updateNode s n (fun nd => { nd with state := NodeState.starting,
                                            generation := nd.generation + 1 })
      else s
  | Event.gotStarted n gen w =>
    match lookupNode s n with
    | none => s
    | some nd =>
      if nd.state = NodeState.starting ∧ nd.generation = gen then
        if s.killed = false ∧ inputsStarted s nd.manifold = true then
          updateNode s n (fun nd => { nd with state := NodeState.started,
                                              worker := some w })
        else
          updateNode s n (fun nd => { nd with state := NodeState.stopping })
      else s
  | Event.gotStartError n gen err =>
    match lookupNode s n with
    | none => s
    | some nd =>
      if nd.state = NodeState.starting ∧ nd.generation = gen then
        updateNode s n (fun nd => { nd with state := NodeState.stopped,
                                            lastError := some err })
      else s
  | Event.gotStopped n gen err =>
    match lookupNode s n with
    | none => s
    | some nd =>
      if nd.generation = gen then
        match nd.state with
        | NodeState.stopping =>
          updateNode s n (fun nd => { nd with state := NodeState.stopped,
                                              lastError := err })
        | NodeState.started =>
          stabilize (updateNode s n (fun nd =>
            { nd with state := NodeState.stopped, worker := none,
                      lastError := err }))
        | _ => s
      else s
  | Event.kill =>
    { nodes := s.nodes.map (fun p => (p.1, killFn p.2)), killed := true }

/-- A run of the engine: the scheduler loop draining its queue from the
initial empty state. -/
def run (events : List Event) : EngineState :=
  events.foldl processEvent initState

/-- Modelled from the spec: engine `Wait()` returns once shutdown was
requested and every node has reported Stopped (§4.4 engine shutdown). -/
def engineWaitReturns (s : EngineState) : Bool :=
  s.killed && s.nodes.all (fun p => decide (p.2.state = NodeState.stopped))

/-- Per-node worker invariant: the worker reference is non-nil exactly while
the node is Started (§3 invariants). -/
def workerOkN (nd : Node) : Prop :=
  nd.worker ≠ none ↔ nd.state = NodeState.started

def workerOk (s : EngineState) : Prop := ∀ p ∈ s.nodes, workerOkN p.2

/-- The scheduler's inductive invariant: unique names, the worker/Started
equivalence, and the topological precondition. -/
def goodState (s : EngineState) : Prop := keysOk s ∧ workerOk s ∧ topOk s

theorem workerOkN_stopNode (nd : Node) : workerOkN (stopNode nd) := by
  simp [workerOkN, stopNode]

theorem workerOkN_freshNode (m : Manifold) : workerOkN (freshNode m) := by
  simp [workerOkN, freshNode]

theorem workerOk_mapValues {s : EngineState} {h : String → Node → Node}
    (hh : ∀ k nd, workerOkN nd → workerOkN (h k nd)) (hw : workerOk s) :
    workerOk (mapValues s h) := by
  intro p hp
  unfold mapValues at hp
  obtain ⟨q, hq, hpe⟩ := List.mem_map.mp hp
  rw [← hpe]
  exact hh q.1 q.2 (hw q hq)

theorem workerOk_update {s : EngineState} {n : String} {nd : Node}
    {f : Node → Node} (hk : keysOk s) (hl : lookupNode s n = some nd)
    (hf : workerOkN (f nd)) (hw : workerOk s) :
    workerOk (updateNode s n f) := by
  intro p hp
  unfold updateNode mapValues at hp
  obtain ⟨q, hq, hpe⟩ := List.mem_map.mp hp
  rw [← hpe]
  by_cases hqn : q.1 = n
  · have hmem : (n, q.2) ∈ s.nodes := by
      have : q = (n, q.2) := by cases q; simp_all
      rwa [this] at hq
    have := mem_eq_of_keysOk hk hl hmem
    simp only [hqn, if_pos rfl, this]
    exact hf
  · simp only [hqn, if_neg hqn]
    exact hw q hq

theorem workerOkN_demoteFn {s : EngineState} {nd : Node} (h : workerOkN nd) :
    workerOkN (demoteFn s nd) := by
  unfold demoteFn
  by_cases hd : demotable s nd
  · rw [if_pos hd]; exact workerOkN_stopNode nd
  · rwa [if_neg hd]

theorem workerOk_demoteOnce {s : EngineState} (hw : workerOk s) :
    workerOk (demoteOnce s) :=
  workerOk_mapValues (fun _ nd h => workerOkN_demoteFn h) hw

theorem workerOk_demote {s : EngineState} (hw : workerOk s) :
    ∀ k, workerOk (demote k s) := by
  intro k
  induction k generalizing s with
  | zero => exact hw
  | succ k ih => exact ih (workerOk_demoteOnce hw)

theorem workerOk_stabilize {s : EngineState} (hw : workerOk s) :
    workerOk (stabilize s) :=
  workerOk_demote hw _

theorem keysOk_demote {s : EngineState} (hk : keysOk s) :
    ∀ k, keysOk (demote k s) := by
  intro k
  induction k generalizing s with
  | zero => exact hk
  | succ k ih => exact ih (keysOk_mapValues hk)

theorem keysOk_stabilize {s : EngineState} (hk : keysOk s) :
    keysOk (stabilize s) :=
  keysOk_demote hk _

theorem goodState_stabilize {s : EngineState} (hk : keysOk s)
    (hw : workerOk s) : goodState (stabilize s) :=
  ⟨keysOk_stabilize hk, workerOk_stabilize hw, topOk_stabilize s⟩

theorem isStarted_update_congr {s : EngineState} {n : String} {nd : Node}
    {f : Node → Node} (hl : lookupNode s n = some nd)
    (hsame : ((f nd).state = NodeState.started) ↔ (nd.state = NodeState.started)) :
    ∀ i, isStarted (updateNode s n f) i = isStarted s i := by
  intro i
  by_cases hin : i = n
  · subst hin
    unfold isStarted
    rw [lookup_update_self, hl]
    simp only [Option.map_some']
    exact decide_eq_decide.mpr hsame
  · unfold isStarted
    rw [lookup_update_other s n i f hin]

theorem isStarted_update_mono {s : EngineState} {n : String} {nd : Node}
    {f : Node → Node} (hl : lookupNode s n = some nd)
    (hns : nd.state ≠ NodeState.started) :
    ∀ i, isStarted s i = true → isStarted (updateNode s n f) i = true := by
  intro i hi
  by_cases hin : i = n
  · subst hin
    exfalso
    rw [isStarted_true_iff] at hi
    obtain ⟨nd', hnd', hst⟩ := hi
    rw [hl] at hnd'
    exact hns (by cases hnd'; exact hst)
  · unfold isStarted
    rw [lookup_update_other s n i f hin]
    exact hi

theorem topOk_update_nonstarted {s : EngineState} {n : String} {nd : Node}
    {f : Node → Node} (hk : keysOk s) (hl : lookupNode s n = some nd)
    (hns : nd.state ≠ NodeState.started)
    (hfs : (f nd).state ≠ NodeState.started) (ht : topOk s) :
    topOk (updateNode s n f) := by
  have hcongr := isStarted_update_congr hl
    (by constructor
        · intro h; exact absurd h hfs
        · intro h; exact absurd h hns)
  intro p hp hst
  unfold updateNode mapValues at hp
  obtain ⟨q, hq, hpe⟩ := List.mem_map.mp hp
  by_cases hqn : q.1 = n
  · exfalso
    have hmem : (n, q.2) ∈ s.nodes := by
      have : q = (n, q.2) := by cases q; simp_all
      rwa [this] at hq
    have hqnd := mem_eq_of_keysOk hk hl hmem
    rw [← hpe] at hst
    simp only [hqn, if_pos rfl, hqnd] at hst
    exact hfs hst
  · rw [← hpe] at hst ⊢
    simp only [if_neg hqn] at hst ⊢
    rw [inputsStarted_congr _ hcongr]
    exact ht q hq hst

theorem topOk_update_gotStarted {s : EngineState} {n : String} {nd : Node}
    {f : Node → Node} (hk : keysOk s) (hl : lookupNode s n = some nd)
    (hns : nd.state ≠ NodeState.started)
    (hfm : (f nd).manifold = nd.manifold)
    (hinp : inputsStarted s nd.manifold = true) (ht : topOk s) :
    topOk (updateNode s n f) := by
  have hmono := isStarted_update_mono (f := f) hl hns
  intro p hp hst
  unfold updateNode mapValues at hp
  obtain ⟨q, hq, hpe⟩ := List.mem_map.mp hp
  by_cases hqn : q.1 = n
  · have hmem : (n, q.2) ∈ s.nodes := by
      have : q = (n, q.2) := by cases q; simp_all
      rwa [this] at hq
    have hqnd := mem_eq_of_keysOk hk hl hmem
    have hite : (if q.1 = n then f q.2 else q.2) = f nd := by
      rw [if_pos hqn, hqnd]
    rw [← hpe]
    show inputsStarted _ (if q.1 = n then f q.2 else q.2).manifold = true
    rw [hite, hfm]
    exact inputsStarted_mono _ hmono hinp
  · rw [← hpe] at hst ⊢
    simp only [if_neg hqn] at hst ⊢
    exact inputsStarted_mono _ hmono (ht q hq hst)

theorem processEvent_install_killed {s : EngineState} (n : String) (m : Manifold)
    (h : s.killed = true) : processEvent s (Event.install n m) = s := by
  simp only [processEvent]
  rw [if_pos h]

theorem processEvent_install_new {s : EngineState} (n : String) (m : Manifold)
    (h : s.killed = false) (hl : lookupNode s n = none) :
    processEvent s (Event.install n m)
      = { nodes := s.nodes ++ [(n, freshNode m)], killed := s.killed } := by
  simp only [processEvent]
  rw [if_neg (by simp [h]), hl]

theorem processEvent_install_replace {s : EngineState} (n : String) (m : Manifold)
    {nd : Node} (h : s.killed = false) (hl : lookupNode s n = some nd) :
    processEvent s (Event.install n m)
      = stabilize (updateNode s n (replaceNode m)) := by
  simp only [processEvent]
  rw [if_neg (by simp [h]), hl]

theorem processEvent_tryStart_killed {s : EngineState} (n : String)
    (h : s.killed = true) : processEvent s (Event.tryStart n) = s := by
  simp only [processEvent]
  rw [if_pos h]

theorem processEvent_tryStart_none {s : EngineState} (n : String)
    (h : s.killed = false) (hl : lookupNode s n = none) :
    processEvent s (Event.tryStart n) = s := by
  simp only [processEvent]
  rw [if_neg (by simp [h]), hl]

theorem processEvent_tryStart_go {s : EngineState} (n : String) {nd : Node}
    (h : s.killed = false) (hl : lookupNode s n = some nd)
    (hst : nd.state = NodeState.stopped)
    (hin : inputsStarted s nd.manifold = true) :
    processEvent s (Event.tryStart n)
      = updateNode s n (fun nd => { nd with state := NodeState.starting,
                                            generation := nd.generation + 1 }) := by
  simp only [processEvent]
  rw [if_neg (by simp [h]), hl]
  simp only [if_pos (And.intro hst hin)]

theorem processEvent_tryStart_skip {s : EngineState} (n : String) {nd : Node}
    (h : s.killed = false) (hl : lookupNode s n = some nd)
    (hng : ¬ (nd.state = NodeState.stopped ∧ inputsStarted s nd.manifold = true)) :
    processEvent s (Event.tryStart n) = s := by
  simp only [processEvent]
  rw [if_neg (by simp [h]), hl]
  simp only [if_neg hng]

theorem processEvent_gotStarted_none {s : EngineState} (n : String) (gen w : Nat)
    (hl : lookupNode s n = none) :
    processEvent s (Event.gotStarted n gen w) = s := by
  simp only [processEvent]
  rw [hl]

theorem processEvent_gotStarted_stale {s : EngineState} (n : String) (gen w : Nat)
    {nd : Node} (hl : lookupNode s n = some nd)
    (hng : ¬ (nd.state = NodeState.starting ∧ nd.generation = gen)) :
    processEvent s (Event.gotStarted n gen w) = s := by
  simp only [processEvent]
  rw [hl]
  simp only [if_neg hng]

theorem processEvent_gotStarted_ok {s : EngineState} (n : String) (gen w : Nat)
    {nd : Node} (hl : lookupNode s n = some nd)
    (hst : nd.state = NodeState.starting) (hgen : nd.generation = gen)
    (hk : s.killed = false) (hin : inputsStarted s nd.manifold = true) :
    processEvent s (Event.gotStarted n gen w)
      = updateNode s n (fun nd => { nd with state := NodeState.started,
                                            worker := some w }) := by
  simp only [processEvent]
  rw [hl]
  simp only [if_pos (And.intro hst hgen), if_pos (And.intro hk hin)]

theorem processEvent_gotStarted_unwanted {s : EngineState} (n : String)
    (gen w : Nat) {nd : Node} (hl : lookupNode s n = some nd)
    (hst : nd.state = NodeState.starting) (hgen : nd.generation = gen)
    (hng : ¬ (s.killed = false ∧ inputsStarted s nd.manifold = true)) :
    processEvent s (Event.gotStarted n gen w)
      = updateNode s n (fun nd => { nd with state := NodeState.stopping }) := by
  simp only [processEvent]
  rw [hl]
  simp only [if_pos (And.intro hst hgen), if_neg hng]

theorem processEvent_gotStartError_none {s : EngineState} (n : String)
    (gen err : Nat) (hl : lookupNode s n = none) :
    processEvent s (Event.gotStartError n gen err) = s := by
  simp only [processEvent]
  rw [hl]

theorem processEvent_gotStartError_stale {s : EngineState} (n : String)
    (gen err : Nat) {nd : Node} (hl : lookupNode s n = some nd)
    (hng : ¬ (nd.state = NodeState.starting ∧ nd.generation = gen)) :
    processEvent s (Event.gotStartError n gen err) = s := by
  simp only [processEvent]
  rw [hl]
  simp only [if_neg hng]

theorem processEvent_gotStartError_ok {s : EngineState} (n : String)
    (gen err : Nat) {nd : Node} (hl : lookupNode s n = some nd)
    (hst : nd.state = NodeState.starting) (hgen : nd.generation = gen) :
    processEvent s (Event.gotStartError n gen err)
      = updateNode s n (fun nd => { nd with state := NodeState.stopped,
                                            lastError := some err }) := by
  simp only [processEvent]
  rw [hl]
  simp only [if_pos (And.intro hst hgen)]

theorem processEvent_gotStopped_none {s : EngineState} (n : String) (gen : Nat)
    (err : Option Nat) (hl : lookupNode s n = none) :
    processEvent s (Event.gotStopped n gen err) = s := by
  simp only [processEvent]
  rw [hl]

theorem processEvent_gotStopped_stale {s : EngineState} (n : String) (gen : Nat)
    (err : Option Nat) {nd : Node} (hl : lookupNode s n = some nd)
    (hgen : ¬ nd.generation = gen) :
    processEvent s (Event.gotStopped n gen err) = s := by
  simp only [processEvent]
  rw [hl]
  simp only [if_neg hgen]

theorem processEvent_gotStopped_stopping {s : EngineState} (n : String)
    (gen : Nat) (err : Option Nat) {nd : Node} (hl : lookupNode s n = some nd)
    (hgen : nd.generation = gen) (hst : nd.state = NodeState.stopping) :
    processEvent s (Event.gotStopped n gen err)
      = updateNode s n (fun nd => { nd with state := NodeState.stopped,
                                            lastError := err }) := by
  simp only [processEvent]
  rw [hl]
  simp only [if_pos hgen, hst]

theorem processEvent_gotStopped_started {s : EngineState} (n : String)
    (gen : Nat) (err : Option Nat) {nd : Node} (hl : lookupNode s n = some nd)
    (hgen : nd.generation = gen) (hst : nd.state = NodeState.started) :
    processEvent s (Event.gotStopped n gen err)
      = stabilize (updateNode s n (fun nd =>
          { nd with state := NodeState.stopped, worker := none,
                    lastError := err })) := by
  simp only [processEvent]
  rw [hl]
  simp only [if_pos hgen, hst]

theorem processEvent_gotStopped_other {s : EngineState} (n : String)
    (gen : Nat) (err : Option Nat) {nd : Node} (hl : lookupNode s n = some nd)
    (hgen : nd.generation = gen) (hs1 : ¬ nd.state = NodeState.stopping)
    (hs2 : ¬ nd.state = NodeState.started) :
    processEvent s (Event.gotStopped n gen err) = s := by
  simp only [processEvent]
  rw [hl]
  cases h : nd.state with
  | stopping => exact absurd h hs1
  | started => exact absurd h hs2
  | stopped => simp [if_pos hgen, h]
  | starting => simp [if_pos hgen, h]

theorem processEvent_kill (s : EngineState) :
    processEvent s Event.kill
      = { nodes := s.nodes.map (fun p => (p.1, killFn p.2)), killed := true } :=
  rfl

theorem workerOkN_replaceNode {nd : Node} (m : Manifold) (h : workerOkN nd) :
    workerOkN (replaceNode m nd) := by
  cases hs : nd.state with
  | started =>
    simp [replaceNode, hs, workerOkN]
  | starting =>
    unfold workerOkN at h
    rw [hs] at h
    simp only [reduceCtorEq, iff_false, ne_eq, not_not] at h
    simp [replaceNode, hs, workerOkN, h]
  | stopped =>
    unfold workerOkN at h
    rw [hs] at h
    simp only [reduceCtorEq, iff_false, ne_eq, not_not] at h
    simp [replaceNode, hs, workerOkN, h]
  | stopping =>
    unfold workerOkN at h
    rw [hs] at h
    simp only [reduceCtorEq, iff_false, ne_eq, not_not] at h
    simp [replaceNode, hs, workerOkN, h]

theorem killFn_not_started (nd : Node) :
    (killFn nd).state ≠ NodeState.started := by
  unfold killFn
  by_cases h : nd.state = NodeState.started
  · simp [h, stopNode]
  · simp [h]

theorem isStarted_append {s : EngineState} {n : String} {m : Manifold} {k : Bool}
    (hl : lookupNode s n = none) :
    ∀ i, isStarted { nodes := s.nodes ++ [(n, freshNode m)], killed := k } i
      = isStarted s i := by
  intro i
  by_cases hin : i = n
  · subst hin
    unfold isStarted
    rw [lookup_append_self s i (freshNode m) k hl, hl]
    simp [freshNode]
  · unfold isStarted
    rw [lookup_append_other s n (freshNode m) k i hin]

theorem goodState_processEvent (s : EngineState) (e : Event)
    (hg : goodState s) : goodState (processEvent s e) := by
  obtain ⟨hk, hw, ht⟩ := hg
  cases e with
  | install n m =>
    cases hkd : s.killed with
    | true => rw [processEvent_install_killed n m hkd]; exact ⟨hk, hw, ht⟩
    | false =>
      cases hl : lookupNode s n with
      | none =>
        rw [processEvent_install_new n m hkd hl]
        refine ⟨keysOk_append hk hl, ?_, ?_⟩
        · intro p hp
          rcases List.mem_append.mp hp with hpo | hpn
          · exact hw p hpo
          · simp only [List.mem_singleton] at hpn
            rw [hpn]
            exact workerOkN_freshNode m
        · intro p hp hst
          rcases List.mem_append.mp hp with hpo | hpn
          · rw [inputsStarted_congr _ (isStarted_append hl)]
            exact ht p hpo hst
          · exfalso
            simp only [List.mem_singleton] at hpn
            rw [hpn] at hst
            simp [freshNode] at hst
      | some nd =>
        rw [processEvent_install_replace n m hkd hl]
        exact goodState_stabilize (keysOk_mapValues hk)
          (workerOk_update hk hl (workerOkN_replaceNode m (hw _ (lookup_mem hl))) hw)
  | tryStart n =>
    cases hkd : s.killed with
    | true => rw [processEvent_tryStart_killed n hkd]; exact ⟨hk, hw, ht⟩
    | false =>
      cases hl : lookupNode s n with
      | none => rw [processEvent_tryStart_none n hkd hl]; exact ⟨hk, hw, ht⟩
      | some nd =>
        by_cases hc : nd.state = NodeState.stopped ∧ inputsStarted s nd.manifold = true
        · rw [processEvent_tryStart_go n hkd hl hc.1 hc.2]
          have hwn : workerOkN nd := hw _ (lookup_mem hl)
          have hnone : nd.worker = none := by
            unfold workerOkN at hwn
            rw [hc.1] at hwn
            simpa using hwn
          refine ⟨keysOk_mapValues hk, workerOk_update hk hl ?_ hw, ?_⟩
          · unfold workerOkN
            simp [hnone]
          · refine topOk_update_nonstarted hk hl ?_ ?_ ht
            · rw [hc.1]; simp
            · simp
        · rw [processEvent_tryStart_skip n hkd hl hc]; exact ⟨hk, hw, ht⟩
  | gotStarted n gen w =>
    cases hl : lookupNode s n with
    | none => rw [processEvent_gotStarted_none n gen w hl]; exact ⟨hk, hw, ht⟩
    | some nd =>
      by_cases h1 : nd.state = NodeState.starting ∧ nd.generation = gen
      · have hwn : workerOkN nd := hw _ (lookup_mem hl)
        have hnone : nd.worker = none := by
          unfold workerOkN at hwn
          rw [h1.1] at hwn
          simpa using hwn
        by_cases h2 : s.killed = false ∧ inputsStarted s nd.manifold = true
        · rw [processEvent_gotStarted_ok n gen w hl h1.1 h1.2 h2.1 h2.2]
          refine ⟨keysOk_mapValues hk, workerOk_update hk hl ?_ hw, ?_⟩
          · unfold workerOkN
            simp
          · exact topOk_update_gotStarted hk hl (by rw [h1.1]; simp) rfl h2.2 ht
        · rw [processEvent_gotStarted_unwanted n gen w hl h1.1 h1.2 h2]
          refine ⟨keysOk_mapValues hk, workerOk_update hk hl ?_ hw, ?_⟩
          · unfold workerOkN
            simp [hnone]
          · refine topOk_update_nonstarted hk hl ?_ ?_ ht
            · rw [h1.1]; simp
            · simp
      · rw [processEvent_gotStarted_stale n gen w hl h1]; exact ⟨hk, hw, ht⟩
  | gotStartError n gen err =>
    cases hl : lookupNode s n with
    | none => rw [processEvent_gotStartError_none n gen err hl]; exact ⟨hk, hw, ht⟩
    | some nd =>
      by_cases h1 : nd.state = NodeState.starting ∧ nd.generation = gen
      · rw [processEvent_gotStartError_ok n gen err hl h1.1 h1.2]
        have hwn : workerOkN nd := hw _ (lookup_mem hl)
        have hnone : nd.worker = none := by
          unfold workerOkN at hwn
          rw [h1.1] at hwn
          simpa using hwn
        refine ⟨keysOk_mapValues hk, workerOk_update hk hl ?_ hw, ?_⟩
        · unfold workerOkN
          simp [hnone]
        · refine topOk_update_nonstarted hk hl ?_ ?_ ht
          · rw [h1.1]; simp
          · simp
      · rw [processEvent_gotStartError_stale n gen err hl h1]; exact ⟨hk, hw, ht⟩
  | gotStopped n gen err =>
    cases hl : lookupNode s n with
    | none => rw [processEvent_gotStopped_none n gen err hl]; exact ⟨hk, hw, ht⟩
    | some nd =>
      by_cases hgen : nd.generation = gen
      · cases hs : nd.state with
        | stopping =>
          rw [processEvent_gotStopped_stopping n gen err hl hgen hs]
          have hwn : workerOkN nd := hw _ (lookup_mem hl)
          have hnone : nd.worker = none := by
            unfold workerOkN at hwn
            rw [hs] at hwn
            simpa using hwn
          refine ⟨keysOk_mapValues hk, workerOk_update hk hl ?_ hw, ?_⟩
          · unfold workerOkN
            simp [hnone]
          · refine topOk_update_nonstarted hk hl ?_ ?_ ht
            · rw [hs]; simp
            · simp
        | started =>
          rw [processEvent_gotStopped_started n gen err hl hgen hs]
          refine goodState_stabilize (keysOk_mapValues hk)
            (workerOk_update hk hl ?_ hw)
          unfold workerOkN
          simp
        | stopped =>
          rw [processEvent_gotStopped_other n gen err hl hgen
            (by rw [hs]; simp) (by rw [hs]; simp)]
          exact ⟨hk, hw, ht⟩
        | starting =>
          rw [processEvent_gotStopped_other n gen err hl hgen
            (by rw [hs]; simp) (by rw [hs]; simp)]
          exact ⟨hk, hw, ht⟩
      · rw [processEvent_gotStopped_stale n gen err hl hgen]; exact ⟨hk, hw, ht⟩
  | kill =>
    rw [processEvent_kill]
    refine ⟨?_, ?_, ?_⟩
    · show (List.map Prod.fst (s.nodes.map (fun p => (p.1, killFn p.2)))).Nodup
      rw [List.map_map]
      have he : (Prod.fst ∘ fun p : String × Node => (p.1, killFn p.2))
          = (Prod.fst : String × Node → String) := by
        funext p; rfl
      rwa [he]
    · intro p hp
      obtain ⟨q, hq, hpe⟩ := List.mem_map.mp hp
      rw [← hpe]
      show workerOkN (killFn q.2)
      unfold killFn
      by_cases hqs : q.2.state = NodeState.started
      · rw [if_pos hqs]; exact workerOkN_stopNode q.2
      · rw [if_neg hqs]; exact hw q hq
    · intro p hp hst
      exfalso
      obtain ⟨q, _, hpe⟩ := List.mem_map.mp hp
      rw [← hpe] at hst
      exact killFn_not_started q.2 hst

theorem goodState_initState : goodState initState := by
  refine ⟨?_, ?_, ?_⟩
  · show (List.map Prod.fst ([] : List (String × Node))).Nodup
    simp
  · intro p hp; simp [initState] at hp
  · intro p hp; simp [initState] at hp

theorem goodState_foldl (t : EngineState) (evts : List Event)
    (hg : goodState t) : goodState (evts.foldl processEvent t) := by
  induction evts generalizing t with
  | nil => exact hg
  | cons e evts ih => exact ih _ (goodState_processEvent t e hg)

/-- Every reachable engine state satisfies the scheduler invariant. -/
theorem goodState_run (evts : List Event) : goodState (run evts) :=
  goodState_foldl initState evts goodState_initState

/-- Modelled from the spec: the result of `Context.Get(name, &out)` (§4.2,
§7): `missing` models `ErrMissing`, `unavailable` models
`ErrResourceUnavailable`, `ok v` models a successful type-narrowed output. -/
inductive GetResult where
  | missing
  | unavailable
  | ok (v : Nat)
deriving DecidableEq, Repr

/-- Modelled from the spec: `Get` on the per-worker resource context (§4.2):
an undeclared name fails with `ErrMissing` (static contract violation); a
declared input whose node is not installed or not currently Started, or whose
output function returns an error during type-narrowing, fails with
`ErrResourceUnavailable`; otherwise the narrowed output of the dependency's
worker is returned.  `Get` is a non-blocking snapshot of the node table. -/
def contextGet (s : EngineState) (m : Manifold) (name : String) : GetResult :=
  if name ∈ m.inputs then
    match lookupNode s name with
    | none => GetResult.unavailable
    | some nd =>
      if nd.state = NodeState.started then
        match nd.worker with
        | none => GetResult.unavailable
        | some w =>
          match nd.manifold.output w with
          | Except.ok v => GetResult.ok v
          | Except.error _ => GetResult.unavailable
      else GetResult.unavailable
  else GetResult.missing

/-- Transitive dependency between installed nodes: `DependsOn s x n` holds
when `n` is reachable from `x` through declared input lists. -/
inductive DependsOn (s : EngineState) : String → String → Prop where
  | direct (x n : String) (nd : Node) (hx : lookupNode s x = some nd)
      (hin : n ∈ nd.manifold.inputs) : DependsOn s x n
  | trans (x y n : String) (hxy : DependsOn s x y) (hyn : DependsOn s y n) :
      DependsOn s x n

/-- Along a dependency chain out of a Started node in a good state, every
node — in particular the endpoint — is Started. -/
theorem started_depends_started {t : EngineState} (hg : goodState t)
    {x n : String} (hdep : DependsOn t x n) :
    ∀ ndx, lookupNode t x = some ndx → ndx.state = NodeState.started →
      ∃ ndn, lookupNode t n = some ndn ∧ ndn.state = NodeState.started := by
  induction hdep with
  | direct x n nd hx hin =>
    intro ndx hx' hst
    rw [hx] at hx'
    have hnd : nd = ndx := by injection hx'
    subst hnd
    have ht := hg.2.2 _ (lookup_mem hx) hst
    exact isStarted_true_iff.mp ((inputsStarted_true_iff.mp ht) n hin)
  | trans x y n hxy hyn ih1 ih2 =>
    intro ndx hx' hst
    obtain ⟨ndy, hy, hys⟩ := ih1 ndx hx' hst
    exact ih2 ndy hy hys

/-- A concrete independent manifold used by the witnesses below. -/
def mW0 : Manifold := ⟨[], fun _ => Except.ok 0⟩

/-- A concrete manifold depending on node "a", used by the witnesses below. -/
def mW1 : Manifold := ⟨["a"], fun _ => Except.ok 1⟩

/-- A concrete event sequence: install "a" and "b" (which depends on "a"),
start both. -/
def wEvts : List Event :=
  [Event.install "a" mW0, Event.install "b" mW1, Event.tryStart "a",
   Event.gotStarted "a" 1 5, Event.tryStart "b", Event.gotStarted "b" 1 7]

/-- A concrete event sequence with a third, independent node "c", used by the
C5 witness. -/
def wEvtsC5 : List Event :=
  wEvts ++ [Event.install "c" mW0, Event.tryStart "c", Event.gotStarted "c" 1 9]

/-- C1: for every reachable engine state and every installed node, the node
is in the Started state only if every one of its declared input nodes is
itself Started — the topological precondition holds as an invariant of the
scheduler's step relation. -/
theorem claim_C1_topological_invariant (evts : List Event) (n : String)
    (nd : Node) (hl : lookupNode (run evts) n = some nd)
    (hst : nd.state = NodeState.started) :
    ∀ i ∈ nd.manifold.inputs, ∃ ndi, lookupNode (run evts) i = some ndi ∧
      ndi.state = NodeState.started := by
  have ht := (goodState_run evts).2.2 _ (lookup_mem hl) hst
  intro i hi
  exact isStarted_true_iff.mp ((inputsStarted_true_iff.mp ht) i hi)

theorem claim_C1_witness :
    ∃ ndi, lookupNode (run wEvts) "a" = some ndi ∧
      ndi.state = NodeState.started :=
  claim_C1_topological_invariant wEvts "b"
    ⟨mW1, NodeState.started, some 7, none, 1⟩ rfl rfl "a" (by simp [mW1])

/-- C2: in every reachable engine state, an installed node's worker
reference is non-nil if and only if the node is in the Started state; the
scheduler preserves this equivalence across every transition. -/
theorem claim_C2_worker_iff_started (evts : List Event) (n : String)
    (nd : Node) (hl : lookupNode (run evts) n = some nd) :
    nd.worker ≠ none ↔ nd.state = NodeState.started :=
  (goodState_run evts).2.1 _ (lookup_mem hl)

theorem claim_C2_witness :
    (Node.worker ⟨mW0, NodeState.started, some 5, none, 1⟩ ≠ none ↔
      Node.state ⟨mW0, NodeState.started, some 5, none, 1⟩ = NodeState.started) :=
  claim_C2_worker_iff_started wEvts "a"
    ⟨mW0, NodeState.started, some 5, none, 1⟩ rfl

theorem contextGet_not_mem {s : EngineState} {m : Manifold} {name : String}
    (h : name ∉ m.inputs) : contextGet s m name = GetResult.missing := by
  unfold contextGet
  rw [if_neg h]

theorem contextGet_no_node {s : EngineState} {m : Manifold} {name : String}
    (h : name ∈ m.inputs) (hl : lookupNode s name = none) :
    contextGet s m name = GetResult.unavailable := by
  unfold contextGet
  rw [if_pos h]
  simp only [hl]

theorem contextGet_not_started {s : EngineState} {m : Manifold} {name : String}
    {nd : Node} (h : name ∈ m.inputs) (hl : lookupNode s name = some nd)
    (hst : nd.state ≠ NodeState.started) :
    contextGet s m name = GetResult.unavailable := by
  unfold contextGet
  rw [if_pos h]
  simp only [hl]
  rw [if_neg hst]

theorem contextGet_no_worker {s : EngineState} {m : Manifold} {name : String}
    {nd : Node} (h : name ∈ m.inputs) (hl : lookupNode s name = some nd)
    (hst : nd.state = NodeState.started) (hwo : nd.worker = none) :
    contextGet s m name = GetResult.unavailable := by
  unfold contextGet
  rw [if_pos h]
  simp only [hl, hwo]
  rw [if_pos hst]

theorem contextGet_output_ok {s : EngineState} {m : Manifold} {name : String}
    {nd : Node} {w v : Nat} (h : name ∈ m.inputs)
    (hl : lookupNode s name = some nd) (hst : nd.state = NodeState.started)
    (hwo : nd.worker = some w) (hout : nd.manifold.output w = Except.ok v) :
    contextGet s m name = GetResult.ok v := by
  unfold contextGet
  rw [if_pos h]
  simp only [hl]
  rw [if_pos hst]
  simp only [hwo, hout]

theorem contextGet_output_err {s : EngineState} {m : Manifold} {name : String}
    {nd : Node} {w e : Nat} (h : name ∈ m.inputs)
    (hl : lookupNode s name = some nd) (hst : nd.state = NodeState.started)
    (hwo : nd.worker = some w) (hout : nd.manifold.output w = Except.error e) :
    contextGet s m name = GetResult.unavailable := by
  unfold contextGet
  rw [if_pos h]
  simp only [hl]
  rw [if_pos hst]
  simp only [hwo, hout]

/-- C3: `Context.Get(name, &out)` returns `ErrMissing` exactly when `name`
is not among the manifold's declared inputs, and returns
`ErrResourceUnavailable` exactly when `name` is a declared input whose node
is absent or not currently Started, or whose output function returns an
error during type-narrowing (stated for states satisfying the worker/Started
equivalence, which every reachable state does). -/
theorem claim_C3_get_error_contract (s : EngineState) (m : Manifold)
    (name : String) (hw : workerOk s) :
    (contextGet s m name = GetResult.missing ↔ name ∉ m.inputs) ∧
    (contextGet s m name = GetResult.unavailable ↔
      name ∈ m.inputs ∧
        ((∀ nd, lookupNode s name = some nd → nd.state ≠ NodeState.started) ∨
         (∃ nd w e, lookupNode s name = some nd ∧
            nd.state = NodeState.started ∧ nd.worker = some w ∧
            nd.manifold.output w = Except.error e))) := by
  by_cases hmem : name ∈ m.inputs
  · cases hl : lookupNode s name with
    | none =>
      have hequ := contextGet_no_node hmem hl
      rw [hequ]
      refine ⟨⟨?_, ?_⟩, ⟨?_, ?_⟩⟩
      · intro h; cases h
      · intro h; exact absurd hmem h
      · intro _
        refine ⟨hmem, Or.inl ?_⟩
        intro nd hnd
        cases hnd
      · intro _; rfl
    | some nd =>
      by_cases hst : nd.state = NodeState.started
      · have hwn := hw _ (lookup_mem hl)
        unfold workerOkN at hwn
        have hws : ∃ w, nd.worker = some w := by
          cases hwo : nd.worker with
          | none => rw [hwo] at hwn; simp [hst] at hwn
          | some w => exact ⟨w, rfl⟩
        obtain ⟨w, hwo⟩ := hws
        cases hout : nd.manifold.output w with
        | ok v =>
          have hequ := contextGet_output_ok hmem hl hst hwo hout
          rw [hequ]
          refine ⟨⟨?_, ?_⟩, ⟨?_, ?_⟩⟩
          · intro h; cases h
          · intro h; exact absurd hmem h
          · intro h; cases h
          · rintro ⟨-, hc | hc⟩
            · exact absurd hst (hc nd rfl)
            · obtain ⟨nd2, w2, e2, hnd2, -, hw2, hout2⟩ := hc
              injection hnd2 with hnd2
              subst hnd2
              rw [hwo] at hw2
              injection hw2 with hw2
              subst hw2
              rw [hout] at hout2
              cases hout2
        | error e =>
          have hequ := contextGet_output_err hmem hl hst hwo hout
          rw [hequ]
          refine ⟨⟨?_, ?_⟩, ⟨?_, ?_⟩⟩
          · intro h; cases h
          · intro h; exact absurd hmem h
          · intro _
            exact ⟨hmem, Or.inr ⟨nd, w, e, rfl, hst, hwo, hout⟩⟩
          · intro _; rfl
      · have hequ := contextGet_not_started hmem hl hst
        rw [hequ]
        refine ⟨⟨?_, ?_⟩, ⟨?_, ?_⟩⟩
        · intro h; cases h
        · intro h; exact absurd hmem h
        · intro _
          refine ⟨hmem, Or.inl ?_⟩
          intro nd2 hnd2
          injection hnd2 with hnd2
          subst hnd2
          exact hst
        · intro _; rfl
  · have hequ := contextGet_not_mem (s := s) hmem
    rw [hequ]
    refine ⟨⟨?_, ?_⟩, ⟨?_, ?_⟩⟩
    · intro _; exact hmem
    · intro _; rfl
    · intro h; cases h
    · rintro ⟨hc, -⟩; exact absurd hc hmem

theorem claim_C3_witness :
    (contextGet (run wEvts) mW1 "a" = GetResult.missing ↔
       "a" ∉ mW1.inputs) ∧
    (contextGet (run wEvts) mW1 "a" = GetResult.unavailable ↔
      "a" ∈ mW1.inputs ∧
        ((∀ nd, lookupNode (run wEvts) "a" = some nd →
            nd.state ≠ NodeState.started) ∨
         (∃ nd w e, lookupNode (run wEvts) "a" = some nd ∧
            nd.state = NodeState.started ∧ nd.worker = some w ∧
            nd.manifold.output w = Except.error e))) :=
  claim_C3_get_error_contract (run wEvts) mW1 "a" (goodState_run wEvts).2.1

/-- C4: a completion event whose generation differs from the node's current
generation is ignored by the scheduler: processing it leaves the engine
state — in particular the node's state tag, worker and last error —
completely unchanged. -/
theorem claim_C4_stale_completions_ignored (s : EngineState) (n : String)
    (gen : Nat) (nd : Node) (hl : lookupNode s n = some nd)
    (hgen : nd.generation ≠ gen) :
    (∀ w, processEvent s (Event.gotStarted n gen w) = s) ∧
    (∀ e, processEvent s (Event.gotStartError n gen e) = s) ∧
    (∀ e, processEvent s (Event.gotStopped n gen e) = s) := by
  refine ⟨?_, ?_, ?_⟩
  · intro w
    exact processEvent_gotStarted_stale n gen w hl (fun h => hgen h.2)
  · intro e
    exact processEvent_gotStartError_stale n gen e hl (fun h => hgen h.2)
  · intro e
    exact processEvent_gotStopped_stale n gen e hl hgen

theorem claim_C4_witness :
    processEvent (run wEvts) (Event.gotStopped "a" 0 (some 9)) = run wEvts :=
  (claim_C4_stale_completions_ignored (run wEvts) "a" 0
    ⟨mW0, NodeState.started, some 5, none, 1⟩ rfl (by decide)).2.2 (some 9)

/-- C5: the stop cascade is transitive and immediate — after any single
scheduler step from a good state, no node that remains Started transitively
depends on a node that is not Started; in particular, whenever a node
leaves Started, every Started node depending on it (directly or
transitively) has left Started in the same step. -/
theorem claim_C5_transitive_stop_cascade (s : EngineState) (e : Event)
    (hg : goodState s) (n x : String) (ndn ndx : Node)
    (hn : lookupNode (processEvent s e) n = some ndn)
    (hnst : ndn.state ≠ NodeState.started)
    (hx : lookupNode (processEvent s e) x = some ndx)
    (hxst : ndx.state = NodeState.started) :
    ¬ DependsOn (processEvent s e) x n := by
  intro hdep
  have hg' := goodState_processEvent s e hg
  obtain ⟨ndn', hn', hst'⟩ := started_depends_started hg' hdep ndx hx hxst
  rw [hn] at hn'
  injection hn' with hn'
  subst hn'
  exact hnst hst'

theorem claim_C5_witness :
    ¬ DependsOn
        (processEvent (run wEvtsC5) (Event.gotStopped "a" 1 (some 3)))
        "c" "a" :=
  claim_C5_transitive_stop_cascade (run wEvtsC5)
    (Event.gotStopped "a" 1 (some 3)) (goodState_run wEvtsC5) "a" "c"
    ⟨mW0, NodeState.stopped, none, some 3, 1⟩
    ⟨mW0, NodeState.started, some 9, none, 1⟩
    rfl (by decide) rfl rfl

theorem lookup_demote_nonstarted :
    ∀ (k : Nat) (s : EngineState) (n : String) (nd : Node),
      lookupNode s n = some nd → nd.state ≠ NodeState.started →
      lookupNode (demote k s) n = some nd := by
  intro k
  induction k with
  | zero => intro s n nd hl _; exact hl
  | succ k ih =>
    intro s n nd hl hns
    rw [demote]
    apply ih
    · rw [demoteOnce, lookup_mapValues, hl]
      simp only [Option.map_some']
      have : demoteFn s nd = nd := by
        unfold demoteFn
        rw [if_neg (fun hd => hns hd.1)]
      rw [this]
    · exact hns

theorem lookup_stabilize_nonstarted {s : EngineState} {n : String} {nd : Node}
    (hl : lookupNode s n = some nd) (hns : nd.state ≠ NodeState.started) :
    lookupNode (stabilize s) n = some nd :=
  lookup_demote_nonstarted (countStarted s) s n nd hl hns

theorem lookup_kill (s : EngineState) (n : String) :
    lookupNode (processEvent s Event.kill) n = (lookupNode s n).map killFn := by
  rw [processEvent_kill]
  exact lookup_mapValues s (fun _ nd => killFn nd) n

/-- A node sitting in Stopping is only moved on by the `Wait()` completion of
the worker it is waiting for: any other event leaves it Stopping at the same
generation. -/
theorem stopping_step (s : EngineState) (e : Event) (n : String) (nd : Node)
    (hl : lookupNode s n = some nd) (hst : nd.state = NodeState.stopping) :
    (∃ nd', lookupNode (processEvent s e) n = some nd' ∧
       nd'.state = NodeState.stopping ∧ nd'.generation = nd.generation) ∨
    (∃ err, e = Event.gotStopped n nd.generation err) := by
  have hns : nd.state ≠ NodeState.started := by rw [hst]; simp
  cases e with
  | install n' m =>
    cases hkd : s.killed with
    | true =>
      rw [processEvent_install_killed n' m hkd]
      exact Or.inl ⟨nd, hl, hst, rfl⟩
    | false =>
      cases hl' : lookupNode s n' with
      | none =>
        rw [processEvent_install_new n' m hkd hl']
        have hne : n ≠ n' := by
          intro he
          rw [he] at hl
          rw [hl] at hl'
          cases hl'
        rw [lookup_append_other s n' (freshNode m) s.killed n hne]
        exact Or.inl ⟨nd, hl, hst, rfl⟩
      | some nd0 =>
        rw [processEvent_install_replace n' m hkd hl']
        by_cases hne : n = n'
        · subst hne
          rw [hl] at hl'
          injection hl' with hl'
          subst hl'
          have hup : lookupNode (updateNode s n (replaceNode m)) n
              = some (replaceNode m nd) := by
            rw [lookup_update_self, hl]
            rfl
          have hrepl : replaceNode m nd = { nd with manifold := m } := by
            unfold replaceNode
            rw [hst]
          refine Or.inl ⟨{ nd with manifold := m }, ?_, hst, rfl⟩
          apply lookup_stabilize_nonstarted
          · rw [hup, hrepl]
          · rw [hst]; simp
        · refine Or.inl ⟨nd, ?_, hst, rfl⟩
          apply lookup_stabilize_nonstarted
          · rw [lookup_update_other s n' n (replaceNode m) hne]
            exact hl
          · exact hns
  | tryStart n' =>
    cases hkd : s.killed with
    | true =>
      rw [processEvent_tryStart_killed n' hkd]
      exact Or.inl ⟨nd, hl, hst, rfl⟩
    | false =>
      cases hl' : lookupNode s n' with
      | none =>
        rw [processEvent_tryStart_none n' hkd hl']
        exact Or.inl ⟨nd, hl, hst, rfl⟩
      | some nd0 =>
        by_cases hc : nd0.state = NodeState.stopped ∧
            inputsStarted s nd0.manifold = true
        · rw [processEvent_tryStart_go n' hkd hl' hc.1 hc.2]
          have hne : n ≠ n' := by
            intro he
            subst he
            rw [hl] at hl'
            injection hl' with hl'
            rw [← hl'] at hc
            rw [hst] at hc
            cases hc.1
          rw [lookup_update_other s n' n _ hne]
          exact Or.inl ⟨nd, hl, hst, rfl⟩
        · rw [processEvent_tryStart_skip n' hkd hl' hc]
          exact Or.inl ⟨nd, hl, hst, rfl⟩
  | gotStarted n' g w =>
    cases hl' : lookupNode s n' with
    | none =>
      rw [processEvent_gotStarted_none n' g w hl']
      exact Or.inl ⟨nd, hl, hst, rfl⟩
    | some nd0 =>
      by_cases h1 : nd0.state = NodeState.starting ∧ nd0.generation = g
      · have hne : n ≠ n' := by
          intro he
          subst he
          rw [hl] at hl'
          injection hl' with hl'
          rw [← hl'] at h1
          rw [hst] at h1
          cases h1.1
        by_cases h2 : s.killed = false ∧ inputsStarted s nd0.manifold = true
        · rw [processEvent_gotStarted_ok n' g w hl' h1.1 h1.2 h2.1 h2.2]
          rw [lookup_update_other s n' n _ hne]
          exact Or.inl ⟨nd, hl, hst, rfl⟩
        · rw [processEvent_gotStarted_unwanted n' g w hl' h1.1 h1.2 h2]
          rw [lookup_update_other s n' n _ hne]
          exact Or.inl ⟨nd, hl, hst, rfl⟩
      · rw [processEvent_gotStarted_stale n' g w hl' h1]
        exact Or.inl ⟨nd, hl, hst, rfl⟩
  | gotStartError n' g err =>
    cases hl' : lookupNode s n' with
    | none =>
      rw [processEvent_gotStartError_none n' g err hl']
      exact Or.inl ⟨nd, hl, hst, rfl⟩
    | some nd0 =>
      by_cases h1 : nd0.state = NodeState.starting ∧ nd0.generation = g
      · have hne : n ≠ n' := by
          intro he
          subst he
          rw [hl] at hl'
          injection hl' with hl'
          rw [← hl'] at h1
          rw [hst] at h1
          cases h1.1
        rw [processEvent_gotStartError_ok n' g err hl' h1.1 h1.2]
        rw [lookup_update_other s n' n _ hne]
        exact Or.inl ⟨nd, hl, hst, rfl⟩
      · rw [processEvent_gotStartError_stale n' g err hl' h1]
        exact Or.inl ⟨nd, hl, hst, rfl⟩
  | gotStopped n' g err =>
    cases hl' : lookupNode s n' with
    | none =>
      rw [processEvent_gotStopped_none n' g err hl']
      exact Or.inl ⟨nd, hl, hst, rfl⟩
    | some nd0 =>
      by_cases hgen : nd0.generation = g
      · by_cases hne : n = n'
        · subst hne
          rw [hl] at hl'
          injection hl' with hl'
          subst hl'
          exact Or.inr ⟨err, by rw [← hgen]⟩
        · cases hs0 : nd0.state with
          | stopping =>
            rw [processEvent_gotStopped_stopping n' g err hl' hgen hs0]
            rw [lookup_update_other s n' n _ hne]
            exact Or.inl ⟨nd, hl, hst, rfl⟩
          | started =>
            rw [processEvent_gotStopped_started n' g err hl' hgen hs0]
            refine Or.inl ⟨nd, ?_, hst, rfl⟩
            apply lookup_stabilize_nonstarted
            · rw [lookup_update_other s n' n _ hne]
              exact hl
            · exact hns
          | stopped =>
            rw [processEvent_gotStopped_other n' g err hl' hgen
              (by rw [hs0]; simp) (by rw [hs0]; simp)]
            exact Or.inl ⟨nd, hl, hst, rfl⟩
          | starting =>
            rw [processEvent_gotStopped_other n' g err hl' hgen
              (by rw [hs0]; simp) (by rw [hs0]; simp)]
            exact Or.inl ⟨nd, hl, hst, rfl⟩
      · rw [processEvent_gotStopped_stale n' g err hl' hgen]
        exact Or.inl ⟨nd, hl, hst, rfl⟩
  | kill =>
    rw [lookup_kill, hl]
    simp only [Option.map_some']
    have : killFn nd = nd := by
      unfold killFn
      rw [if_neg hns]
    rw [this]
    exact Or.inl ⟨nd, rfl, hst, rfl⟩

/-- Over any event sequence, a Stopping node either stays Stopping at its
generation or the sequence contains the `Wait()` completion of the worker it
was stopping. -/
theorem stopping_until_wait (n : String) :
    ∀ (evts : List Event) (t : EngineState) (nd : Node),
      lookupNode t n = some nd → nd.state = NodeState.stopping →
      (∃ nd', lookupNode (evts.foldl processEvent t) n = some nd' ∧
         nd'.state = NodeState.stopping ∧ nd'.generation = nd.generation) ∨
      (∃ err, Event.gotStopped n nd.generation err ∈ evts) := by
  intro evts
  induction evts with
  | nil =>
    intro t nd hl hst
    exact Or.inl ⟨nd, hl, hst, rfl⟩
  | cons e evts ih =>
    intro t nd hl hst
    rcases stopping_step t e n nd hl hst with ⟨nd', hl', hst', hgen'⟩ | ⟨err, he⟩
    · rcases ih (processEvent t e) nd' hl' hst' with ⟨nd2, hl2, hst2, hgen2⟩ | ⟨err, hmem⟩
      · exact Or.inl ⟨nd2, hl2, hst2, by rw [hgen2, hgen']⟩
      · exact Or.inr ⟨err, by rw [← hgen']; exact List.mem_cons_of_mem e hmem⟩
    · exact Or.inr ⟨err, by rw [he]; exact List.mem_cons_self _ _⟩

/-- C7: when `Install(name, manifold)` replaces an existing Started node, the
old worker is stopped first and the replacing manifold's start function
cannot run until the old worker has fully exited: after the replacing
install, the node can only be found Starting (or Started) again once the
queue has delivered the `Wait()` completion of the old worker — the
`gotStopped` event carrying the old node's generation. -/
theorem claim_C7_replace_waits_for_old_worker (s : EngineState) (n : String)
    (m : Manifold) (nd : Node) (hkd : s.killed = false)
    (hl : lookupNode s n = some nd) (hst : nd.state = NodeState.started)
    (evts : List Event) (nd2 : Node)
    (hl2 : lookupNode
      (evts.foldl processEvent (processEvent s (Event.install n m))) n
        = some nd2)
    (hrun : nd2.state = NodeState.starting ∨ nd2.state = NodeState.started) :
    ∃ err, Event.gotStopped n nd.generation err ∈ evts := by
  have hs1 : processEvent s (Event.install n m)
      = stabilize (updateNode s n (replaceNode m)) :=
    processEvent_install_replace n m hkd hl
  have hrepl : replaceNode m nd
      = { nd with manifold := m, state := NodeState.stopping, worker := none } := by
    unfold replaceNode
    rw [hst]
  have hup : lookupNode (updateNode s n (replaceNode m)) n
      = some { nd with manifold := m, state := NodeState.stopping,
                       worker := none } := by
    rw [lookup_update_self, hl]
    simp only [Option.map_some']
    rw [hrepl]
  have hlk1 : lookupNode (processEvent s (Event.install n m)) n
      = some { nd with manifold := m, state := NodeState.stopping,
                       worker := none } := by
    rw [hs1]
    exact lookup_stabilize_nonstarted hup (by simp)
  rcases stopping_until_wait n evts (processEvent s (Event.install n m))
      _ hlk1 rfl with ⟨nd', hl', hst', -⟩ | ⟨err, hmem⟩
  · exfalso
    rw [hl2] at hl'
    injection hl' with hl'
    subst hl'
    rcases hrun with hr | hr
    · rw [hst'] at hr; cases hr
    · rw [hst'] at hr; cases hr
  · exact ⟨err, hmem⟩

theorem claim_C7_witness :
    ∃ err, Event.gotStopped "a" 1 err
      ∈ [Event.gotStopped "a" 1 none, Event.tryStart "a"] :=
  claim_C7_replace_waits_for_old_worker (run wEvts) "a" mW0
    ⟨mW0, NodeState.started, some 5, none, 1⟩ rfl rfl rfl
    [Event.gotStopped "a" 1 none, Event.tryStart "a"]
    ⟨mW0, NodeState.starting, none, none, 2⟩ rfl (Or.inl rfl)

/-- No node of the table is Started. -/
def noStarted (s : EngineState) : Prop :=
  ∀ p ∈ s.nodes, p.2.state ≠ NodeState.started

theorem noStarted_update_all {s : EngineState} {n : String} {f : Node → Node}
    (hf : ∀ nd, (f nd).state ≠ NodeState.started) (hns : noStarted s) :
    noStarted (updateNode s n f) := by
  intro p hp
  unfold updateNode mapValues at hp
  obtain ⟨q, hq, hpe⟩ := List.mem_map.mp hp
  rw [← hpe]
  show (if q.1 = n then f q.2 else q.2).state ≠ NodeState.started
  by_cases hqn : q.1 = n
  · rw [if_pos hqn]; exact hf q.2
  · rw [if_neg hqn]; exact hns q hq

theorem killed_updateNode (s : EngineState) (n : String) (f : Node → Node) :
    (updateNode s n f).killed = s.killed := rfl

/-- Once the engine has been killed, it stays killed and no node ever
returns to Started. -/
theorem killed_noStarted_step (s : EngineState) (e : Event)
    (hkd : s.killed = true) (hns : noStarted s) :
    (processEvent s e).killed = true ∧ noStarted (processEvent s e) := by
  cases e with
  | install n m =>
    rw [processEvent_install_killed n m hkd]
    exact ⟨hkd, hns⟩
  | tryStart n =>
    rw [processEvent_tryStart_killed n hkd]
    exact ⟨hkd, hns⟩
  | gotStarted n g w =>
    cases hl : lookupNode s n with
    | none =>
      rw [processEvent_gotStarted_none n g w hl]
      exact ⟨hkd, hns⟩
    | some nd =>
      by_cases h1 : nd.state = NodeState.starting ∧ nd.generation = g
      · have h2 : ¬ (s.killed = false ∧ inputsStarted s nd.manifold = true) := by
          rintro ⟨hc, -⟩
          rw [hkd] at hc
          cases hc
        rw [processEvent_gotStarted_unwanted n g w hl h1.1 h1.2 h2]
        exact ⟨hkd, noStarted_update_all (by intro nd'; simp) hns⟩
      · rw [processEvent_gotStarted_stale n g w hl h1]
        exact ⟨hkd, hns⟩
  | gotStartError n g err =>
    cases hl : lookupNode s n with
    | none =>
      rw [processEvent_gotStartError_none n g err hl]
      exact ⟨hkd, hns⟩
    | some nd =>
      by_cases h1 : nd.state = NodeState.starting ∧ nd.generation = g
      · rw [processEvent_gotStartError_ok n g err hl h1.1 h1.2]
        exact ⟨hkd, noStarted_update_all (by intro nd'; simp) hns⟩
      · rw [processEvent_gotStartError_stale n g err hl h1]
        exact ⟨hkd, hns⟩
  | gotStopped n g err =>
    cases hl : lookupNode s n with
    | none =>
      rw [processEvent_gotStopped_none n g err hl]
      exact ⟨hkd, hns⟩
    | some nd =>
      by_cases hgen : nd.generation = g
      · cases hs0 : nd.state with
        | stopping =>
          rw [processEvent_gotStopped_stopping n g err hl hgen hs0]
          exact ⟨hkd, noStarted_update_all (by intro nd'; simp) hns⟩
        | started =>
          exact absurd hs0 (hns _ (lookup_mem hl))
        | stopped =>
          rw [processEvent_gotStopped_other n g err hl hgen
            (by rw [hs0]; simp) (by rw [hs0]; simp)]
          exact ⟨hkd, hns⟩
        | starting =>
          rw [processEvent_gotStopped_other n g err hl hgen
            (by rw [hs0]; simp) (by rw [hs0]; simp)]
          exact ⟨hkd, hns⟩
      · rw [processEvent_gotStopped_stale n g err hl hgen]
        exact ⟨hkd, hns⟩
  | kill =>
    rw [processEvent_kill]
    refine ⟨rfl, ?_⟩
    intro p hp
    obtain ⟨q, -, hpe⟩ := List.mem_map.mp hp
    rw [← hpe]
    exact killFn_not_started q.2

theorem killed_noStarted_foldl (evts : List Event) :
    ∀ t : EngineState, t.killed = true → noStarted t →
      (evts.foldl processEvent t).killed = true ∧
        noStarted (evts.foldl processEvent t) := by
  induction evts with
  | nil => intro t hk hn; exact ⟨hk, hn⟩
  | cons e evts ih =>
    intro t hk hn
    obtain ⟨hk', hn'⟩ := killed_noStarted_step t e hk hn
    exact ih (processEvent t e) hk' hn'

/-- C8: processing engine `Kill()` transitions every Started node to Stopping
within the same atomic scheduler step (so a dependent's Stopping is never
observed after its dependency has finished stopping), leaves no node
Started, marks the engine as killed forever — no node ever becomes Started
again — and `Wait()` returns only once every node has reported Stopped. -/
theorem claim_C8_kill_stops_all (s : EngineState) (evts : List Event) :
    (∀ n nd, lookupNode s n = some nd → nd.state = NodeState.started →
       lookupNode (processEvent s Event.kill) n = some (stopNode nd)) ∧
    noStarted (processEvent s Event.kill) ∧
    (processEvent s Event.kill).killed = true ∧
    (evts.foldl processEvent (processEvent s Event.kill)).killed = true ∧
    noStarted (evts.foldl processEvent (processEvent s Event.kill)) ∧
    (engineWaitReturns (evts.foldl processEvent (processEvent s Event.kill))
        = true →
      ∀ p ∈ (evts.foldl processEvent (processEvent s Event.kill)).nodes,
        p.2.state = NodeState.stopped) := by
  have hbase : (processEvent s Event.kill).killed = true ∧
      noStarted (processEvent s Event.kill) := by
    rw [processEvent_kill]
    refine ⟨rfl, ?_⟩
    intro p hp
    obtain ⟨q, -, hpe⟩ := List.mem_map.mp hp
    rw [← hpe]
    exact killFn_not_started q.2
  obtain ⟨hkf, hnf⟩ := killed_noStarted_foldl evts _ hbase.1 hbase.2
  refine ⟨?_, hbase.2, hbase.1, hkf, hnf, ?_⟩
  · intro n nd hl hst
    rw [lookup_kill, hl]
    simp only [Option.map_some']
    unfold killFn
    rw [if_pos hst]
  · intro hwret p hp
    unfold engineWaitReturns at hwret
    rw [Bool.and_eq_true] at hwret
    have := List.all_eq_true.mp hwret.2 p hp
    exact of_decide_eq_true this

theorem claim_C8_witness :
    lookupNode (processEvent (run wEvts) Event.kill) "a"
      = some (stopNode ⟨mW0, NodeState.started, some 5, none, 1⟩) ∧
    Node.state ⟨mW1, NodeState.stopped, none, none, 1⟩ = NodeState.stopped :=
  ⟨(claim_C8_kill_stops_all (run wEvts)
      [Event.gotStopped "a" 1 none, Event.gotStopped "b" 1 none]).1 "a"
      ⟨mW0, NodeState.started, some 5, none, 1⟩ rfl rfl,
   (claim_C8_kill_stops_all (run wEvts)
      [Event.gotStopped "a" 1 none, Event.gotStopped "b" 1 none]).2.2.2.2.2
      rfl ("b", ⟨mW1, NodeState.stopped, none, none, 1⟩)
      (List.Mem.tail _ (List.Mem.head _))⟩

/-- Two nodes that agree on everything a sibling can observe: manifold,
state, worker and generation — the last recorded error value may differ. -/
def nodeEquiv (a b : Node) : Prop :=
  a.manifold = b.manifold ∧ a.state = b.state ∧ a.worker = b.worker ∧
    a.generation = b.generation

def pairEquiv (p q : String × Node) : Prop := p.1 = q.1 ∧ nodeEquiv p.2 q.2

/-- Two engine states that differ at most in recorded error values. -/
def stateEquiv (s t : EngineState) : Prop :=
  s.killed = t.killed ∧ List.Forall₂ pairEquiv s.nodes t.nodes

/-- Two queue events that differ at most in the error value carried by a
start-failure or worker-exit completion. -/
def eventEquiv : Event → Event → Prop
  | Event.install n m, Event.install n' m' => n = n' ∧ m = m'
  | Event.tryStart n, Event.tryStart n' => n = n'
  | Event.gotStarted n g w, Event.gotStarted n' g' w' =>
      n = n' ∧ g = g' ∧ w = w'
  | Event.gotStartError n g _, Event.gotStartError n' g' _ => n = n' ∧ g = g'
  | Event.gotStopped n g _, Event.gotStopped n' g' _ => n = n' ∧ g = g'
  | Event.kill, Event.kill => True
  | _, _ => False

theorem nodeEquiv_refl (a : Node) : nodeEquiv a a := ⟨rfl, rfl, rfl, rfl⟩

theorem find?_equiv {n : String} :
    ∀ {l l' : List (String × Node)}, List.Forall₂ pairEquiv l l' →
      (l.find? (fun p => decide (p.1 = n)) = none ∧
       l'.find? (fun p => decide (p.1 = n)) = none) ∨
      (∃ p q, l.find? (fun p => decide (p.1 = n)) = some p ∧
        l'.find? (fun p => decide (p.1 = n)) = some q ∧ pairEquiv p q) := by
  intro l l' h
  induction h with
  | nil => exact Or.inl ⟨rfl, rfl⟩
  | cons hpq h ih =>
    rename_i p q l l'
    by_cases hp : p.1 = n
    · have hq : q.1 = n := by rw [← hpq.1]; exact hp
      refine Or.inr ⟨p, q, ?_, ?_, hpq⟩
      · rw [List.find?_cons_of_pos _ (by simp [hp])]
      · rw [List.find?_cons_of_pos _ (by simp [hq])]
    · have hq : ¬ q.1 = n := by rw [← hpq.1]; exact hp
      rw [List.find?_cons_of_neg _ (by simp [hp]),
          List.find?_cons_of_neg _ (by simp [hq])]
      exact ih

theorem lookup_equiv {s t : EngineState} (h : stateEquiv s t) (n : String) :
    (lookupNode s n = none ∧ lookupNode t n = none) ∨
    (∃ a b, lookupNode s n = some a ∧ lookupNode t n = some b ∧
       nodeEquiv a b) := by
  unfold lookupNode
  rcases find?_equiv h.2 (n := n) with ⟨h1, h2⟩ | ⟨p, q, h1, h2, hpq⟩
  · rw [h1, h2]
    exact Or.inl ⟨rfl, rfl⟩
  · rw [h1, h2]
    exact Or.inr ⟨p.2, q.2, rfl, rfl, hpq.2⟩

theorem isStarted_equiv {s t : EngineState} (h : stateEquiv s t) (n : String) :
    isStarted s n = isStarted t n := by
  unfold isStarted
  rcases lookup_equiv h n with ⟨h1, h2⟩ | ⟨a, b, h1, h2, hab⟩
  · rw [h1, h2]
  · rw [h1, h2]
    exact decide_eq_decide.mpr (by rw [hab.2.1])

theorem inputsStarted_equiv {s t : EngineState} (h : stateEquiv s t)
    (m : Manifold) : inputsStarted s m = inputsStarted t m :=
  inputsStarted_congr m (isStarted_equiv h)

theorem forall2_map_values {l l' : List (String × Node)}
    (h : List.Forall₂ pairEquiv l l') (f g : String → Node → Node)
    (hfg : ∀ k a b, nodeEquiv a b → nodeEquiv (f k a) (g k b)) :
    List.Forall₂ pairEquiv (l.map (fun p => (p.1, f p.1 p.2)))
      (l'.map (fun p => (p.1, g p.1 p.2))) := by
  induction h with
  | nil => exact List.Forall₂.nil
  | cons hpq h ih =>
    rename_i p q l l'
    refine List.Forall₂.cons ⟨hpq.1, ?_⟩ ih
    have hk := hfg p.1 p.2 q.2 hpq.2
    have hgk : g p.1 q.2 = g q.1 q.2 := by rw [hpq.1]
    rw [hgk] at hk
    exact hk

theorem mapValues_equiv {s t : EngineState} (h : stateEquiv s t)
    {f g : String → Node → Node}
    (hfg : ∀ k a b, nodeEquiv a b → nodeEquiv (f k a) (g k b)) :
    stateEquiv (mapValues s f) (mapValues t g) :=
  ⟨h.1, forall2_map_values h.2 f g hfg⟩

theorem stopNode_equiv {a b : Node} (h : nodeEquiv a b) :
    nodeEquiv (stopNode a) (stopNode b) :=
  ⟨h.1, rfl, rfl, h.2.2.2⟩

theorem demotable_equiv {s t : EngineState} (hst : stateEquiv s t)
    {a b : Node} (hab : nodeEquiv a b) : demotable s a ↔ demotable t b := by
  unfold demotable
  rw [hab.2.1, hab.1, inputsStarted_equiv hst]

theorem demoteFn_equiv {s t : EngineState} (hst : stateEquiv s t)
    {a b : Node} (hab : nodeEquiv a b) :
    nodeEquiv (demoteFn s a) (demoteFn t b) := by
  unfold demoteFn
  by_cases hd : demotable s a
  · rw [if_pos hd, if_pos ((demotable_equiv hst hab).mp hd)]
    exact stopNode_equiv hab
  · rw [if_neg hd, if_neg (fun hd' => hd ((demotable_equiv hst hab).mpr hd'))]
    exact hab

theorem demoteOnce_equiv {s t : EngineState} (h : stateEquiv s t) :
    stateEquiv (demoteOnce s) (demoteOnce t) :=
  mapValues_equiv h (fun _ a b hab => demoteFn_equiv h hab)

theorem countS_equiv : ∀ {l l' : List (String × Node)},
    List.Forall₂ pairEquiv l l' → countS l = countS l' := by
  intro l l' h
  induction h with
  | nil => rfl
  | cons hpq h ih =>
    rename_i p q l l'
    rw [countS_cons, countS_cons, ih, hpq.2.2.1]

theorem countStarted_equiv {s t : EngineState} (h : stateEquiv s t) :
    countStarted s = countStarted t :=
  countS_equiv h.2

theorem demote_equiv : ∀ (k : Nat) {s t : EngineState}, stateEquiv s t →
    stateEquiv (demote k s) (demote k t) := by
  intro k
  induction k with
  | zero => intro s t h; exact h
  | succ k ih => intro s t h; exact ih (demoteOnce_equiv h)

theorem stabilize_equiv {s t : EngineState} (h : stateEquiv s t) :
    stateEquiv (stabilize s) (stabilize t) := by
  unfold stabilize
  rw [countStarted_equiv h]
  exact demote_equiv _ h

theorem replaceNode_equiv (m : Manifold) {a b : Node} (h : nodeEquiv a b) :
    nodeEquiv (replaceNode m a) (replaceNode m b) := by
  have hb : b.state = a.state := h.2.1.symm
  cases ha : a.state with
  | started =>
    simp only [replaceNode, hb, ha]
    exact ⟨rfl, rfl, rfl, h.2.2.2⟩
  | starting =>
    simp only [replaceNode, hb, ha]
    exact ⟨rfl, rfl, h.2.2.1, by rw [h.2.2.2]⟩
  | stopped =>
    simp only [replaceNode, hb, ha]
    exact ⟨rfl, rfl, h.2.2.1, h.2.2.2⟩
  | stopping =>
    simp only [replaceNode, hb, ha]
    exact ⟨rfl, rfl, h.2.2.1, h.2.2.2⟩

theorem updateNode_equiv {s t : EngineState} (h : stateEquiv s t) (n : String)
    {f g : Node → Node} (hfg : ∀ a b, nodeEquiv a b → nodeEquiv (f a) (g b)) :
    stateEquiv (updateNode s n f) (updateNode t n g) := by
  unfold updateNode
  refine mapValues_equiv h ?_
  intro k a b hab
  by_cases hk : k = n
  · rw [if_pos hk, if_pos hk]
    exact hfg a b hab
  · rw [if_neg hk, if_neg hk]
    exact hab

/-- One scheduler step sends equivalent states to equivalent states when fed
events that differ at most in error payloads. -/
theorem processEvent_equiv {s t : EngineState} (hst : stateEquiv s t) :
    ∀ {e e' : Event}, eventEquiv e e' →
      stateEquiv (processEvent s e) (processEvent t e') := by
  intro e e' hee
  cases e with
  | install n m =>
    cases e' with
    | install n' m' =>
      obtain ⟨hn, hm⟩ := hee
      subst hn; subst hm
      cases hkd : s.killed with
      | true =>
        rw [processEvent_install_killed n m hkd,
            processEvent_install_killed n m (by rw [← hst.1]; exact hkd)]
        exact hst
      | false =>
        have hkd' : t.killed = false := by rw [← hst.1]; exact hkd
        rcases lookup_equiv hst n with ⟨h1, h2⟩ | ⟨a, b, h1, h2, hab⟩
        · rw [processEvent_install_new n m hkd h1,
              processEvent_install_new n m hkd' h2]
          refine ⟨by rw [hst.1], ?_⟩
          exact List.rel_append hst.2
            (List.Forall₂.cons ⟨rfl, nodeEquiv_refl _⟩ List.Forall₂.nil)
        · rw [processEvent_install_replace n m hkd h1,
              processEvent_install_replace n m hkd' h2]
          exact stabilize_equiv
            (updateNode_equiv hst n (fun a b hab => replaceNode_equiv m hab))
    | tryStart n' => cases hee
    | gotStarted n' g' w' => cases hee
    | gotStartError n' g' e2 => cases hee
    | gotStopped n' g' e2 => cases hee
    | kill => cases hee
  | tryStart n =>
    cases e' with
    | tryStart n' =>
      have hn := hee
      subst hn
      cases hkd : s.killed with
      | true =>
        rw [processEvent_tryStart_killed n hkd,
            processEvent_tryStart_killed n (by rw [← hst.1]; exact hkd)]
        exact hst
      | false =>
        have hkd' : t.killed = false := by rw [← hst.1]; exact hkd
        rcases lookup_equiv hst n with ⟨h1, h2⟩ | ⟨a, b, h1, h2, hab⟩
        · rw [processEvent_tryStart_none n hkd h1,
              processEvent_tryStart_none n hkd' h2]
          exact hst
        · by_cases hc : a.state = NodeState.stopped ∧
              inputsStarted s a.manifold = true
          · have hc' : b.state = NodeState.stopped ∧
                inputsStarted t b.manifold = true := by
              rw [← hab.2.1, ← hab.1, ← inputsStarted_equiv hst]
              exact hc
            rw [processEvent_tryStart_go n hkd h1 hc.1 hc.2,
                processEvent_tryStart_go n hkd' h2 hc'.1 hc'.2]
            refine updateNode_equiv hst n ?_
            intro a' b' hab'
            exact ⟨hab'.1, rfl, hab'.2.2.1, by rw [hab'.2.2.2]⟩
          · have hc' : ¬ (b.state = NodeState.stopped ∧
                inputsStarted t b.manifold = true) := by
              rw [← hab.2.1, ← hab.1, ← inputsStarted_equiv hst]
              exact hc
            rw [processEvent_tryStart_skip n hkd h1 hc,
                processEvent_tryStart_skip n hkd' h2 hc']
            exact hst
    | install n' m' => cases hee
    | gotStarted n' g' w' => cases hee
    | gotStartError n' g' e2 => cases hee
    | gotStopped n' g' e2 => cases hee
    | kill => cases hee
  | gotStarted n g w =>
    cases e' with
    | gotStarted n' g' w' =>
      obtain ⟨hn, hg, hw⟩ := hee
      subst hn; subst hg; subst hw
      rcases lookup_equiv hst n with ⟨h1, h2⟩ | ⟨a, b, h1, h2, hab⟩
      · rw [processEvent_gotStarted_none n g w h1,
            processEvent_gotStarted_none n g w h2]
        exact hst
      · by_cases h1c : a.state = NodeState.starting ∧ a.generation = g
        · have h1c' : b.state = NodeState.starting ∧ b.generation = g := by
            rw [← hab.2.1, ← hab.2.2.2]
            exact h1c
          by_cases h2c : s.killed = false ∧ inputsStarted s a.manifold = true
          · have h2c' : t.killed = false ∧
                inputsStarted t b.manifold = true := by
              rw [← hst.1, ← hab.1, ← inputsStarted_equiv hst]
              exact h2c
            rw [processEvent_gotStarted_ok n g w h1 h1c.1 h1c.2 h2c.1 h2c.2,
                processEvent_gotStarted_ok n g w h2 h1c'.1 h1c'.2 h2c'.1 h2c'.2]
            refine updateNode_equiv hst n ?_
            intro a' b' hab'
            exact ⟨hab'.1, rfl, rfl, hab'.2.2.2⟩
          · have h2c' : ¬ (t.killed = false ∧
                inputsStarted t b.manifold = true) := by
              rw [← hst.1, ← hab.1, ← inputsStarted_equiv hst]
              exact h2c
            rw [processEvent_gotStarted_unwanted n g w h1 h1c.1 h1c.2 h2c,
                processEvent_gotStarted_unwanted n g w h2 h1c'.1 h1c'.2 h2c']
            refine updateNode_equiv hst n ?_
            intro a' b' hab'
            exact ⟨hab'.1, rfl, hab'.2.2.1, hab'.2.2.2⟩
        · have h1c' : ¬ (b.state = NodeState.starting ∧ b.generation = g) := by
            rw [← hab.2.1, ← hab.2.2.2]
            exact h1c
          rw [processEvent_gotStarted_stale n g w h1 h1c,
              processEvent_gotStarted_stale n g w h2 h1c']
          exact hst
    | install n' m' => cases hee
    | tryStart n' => cases hee
    | gotStartError n' g' e2 => cases hee
    | gotStopped n' g' e2 => cases hee
    | kill => cases hee
  | gotStartError n g err =>
    cases e' with
    | gotStartError n' g' err' =>
      obtain ⟨hn, hg⟩ := hee
      subst hn; subst hg
      rcases lookup_equiv hst n with ⟨h1, h2⟩ | ⟨a, b, h1, h2, hab⟩
      · rw [processEvent_gotStartError_none n g err h1,
            processEvent_gotStartError_none n g err' h2]
        exact hst
      · by_cases h1c : a.state = NodeState.starting ∧ a.generation = g
        · have h1c' : b.state = NodeState.starting ∧ b.generation = g := by
            rw [← hab.2.1, ← hab.2.2.2]
            exact h1c
          rw [processEvent_gotStartError_ok n g err h1 h1c.1 h1c.2,
              processEvent_gotStartError_ok n g err' h2 h1c'.1 h1c'.2]
          refine updateNode_equiv hst n ?_
          intro a' b' hab'
          exact ⟨hab'.1, rfl, hab'.2.2.1, hab'.2.2.2⟩
        · have h1c' : ¬ (b.state = NodeState.starting ∧ b.generation = g) := by
            rw [← hab.2.1, ← hab.2.2.2]
            exact h1c
          rw [processEvent_gotStartError_stale n g err h1 h1c,
              processEvent_gotStartError_stale n g err' h2 h1c']
          exact hst
    | install n' m' => cases hee
    | tryStart n' => cases hee
    | gotStarted n' g' w' => cases hee
    | gotStopped n' g' e2 => cases hee
    | kill => cases hee
  | gotStopped n g err =>
    cases e' with
    | gotStopped n' g' err' =>
      obtain ⟨hn, hg⟩ := hee
      subst hn; subst hg
      rcases lookup_equiv hst n with ⟨h1, h2⟩ | ⟨a, b, h1, h2, hab⟩
      · rw [processEvent_gotStopped_none n g err h1,
            processEvent_gotStopped_none n g err' h2]
        exact hst
      · by_cases hgen : a.generation = g
        · have hgen' : b.generation = g := by rw [← hab.2.2.2]; exact hgen
          cases ha : a.state with
          | stopping =>
            have hb : b.state = NodeState.stopping := by
              rw [← hab.2.1]; exact ha
            rw [processEvent_gotStopped_stopping n g err h1 hgen ha,
                processEvent_gotStopped_stopping n g err' h2 hgen' hb]
            refine updateNode_equiv hst n ?_
            intro a' b' hab'
            exact ⟨hab'.1, rfl, hab'.2.2.1, hab'.2.2.2⟩
          | started =>
            have hb : b.state = NodeState.started := by
              rw [← hab.2.1]; exact ha
            rw [processEvent_gotStopped_started n g err h1 hgen ha,
                processEvent_gotStopped_started n g err' h2 hgen' hb]
            refine stabilize_equiv (updateNode_equiv hst n ?_)
            intro a' b' hab'
            exact ⟨hab'.1, rfl, rfl, hab'.2.2.2⟩
          | stopped =>
            have hb : b.state = NodeState.stopped := by
              rw [← hab.2.1]; exact ha
            rw [processEvent_gotStopped_other n g err h1 hgen
                  (by rw [ha]; simp) (by rw [ha]; simp),
                processEvent_gotStopped_other n g err' h2 hgen'
                  (by rw [hb]; simp) (by rw [hb]; simp)]
            exact hst
          | starting =>
            have hb : b.state = NodeState.starting := by
              rw [← hab.2.1]; exact ha
            rw [processEvent_gotStopped_other n g err h1 hgen
                  (by rw [ha]; simp) (by rw [ha]; simp),
                processEvent_gotStopped_other n g err' h2 hgen'
                  (by rw [hb]; simp) (by rw [hb]; simp)]
            exact hst
        · have hgen2 : ¬ b.generation = g := by rw [← hab.2.2.2]; exact hgen
          rw [processEvent_gotStopped_stale n g err h1 hgen,
              processEvent_gotStopped_stale n g err' h2 hgen2]
          exact hst
    | install n' m' => cases hee
    | tryStart n' => cases hee
    | gotStarted n' g' w' => cases hee
    | gotStartError n' g' e2 => cases hee
    | kill => cases hee
  | kill =>
    cases e' with
    | kill =>
      rw [processEvent_kill, processEvent_kill]
      refine ⟨rfl, ?_⟩
      show List.Forall₂ pairEquiv
        (s.nodes.map (fun p => (p.1, killFn p.2)))
        (t.nodes.map (fun p => (p.1, killFn p.2)))
      refine forall2_map_values hst.2 (fun _ nd => killFn nd)
        (fun _ nd => killFn nd) ?_
      intro k a b hab
      show nodeEquiv (killFn a) (killFn b)
      unfold killFn
      by_cases ha : a.state = NodeState.started
      · rw [if_pos ha, if_pos (by rw [← hab.2.1]; exact ha)]
        exact stopNode_equiv hab
      · rw [if_neg ha, if_neg (by rw [← hab.2.1]; exact ha)]
        exact hab
    | install n' m' => cases hee
    | tryStart n' => cases hee
    | gotStarted n' g' w' => cases hee
    | gotStartError n' g' e2 => cases hee
    | gotStopped n' g' e2 => cases hee

theorem run_equiv : ∀ {evts evts' : List Event},
    List.Forall₂ eventEquiv evts evts' → ∀ {s t : EngineState},
      stateEquiv s t →
      stateEquiv (evts.foldl processEvent s) (evts'.foldl processEvent t) := by
  intro evts evts' h
  induction h with
  | nil => intro s t hst; exact hst
  | cons hee h ih =>
    intro s t hst
    exact ih (processEvent_equiv hst hee)

theorem contextGet_equiv {s t : EngineState} (h : stateEquiv s t)
    (m : Manifold) (name : String) :
    contextGet s m name = contextGet t m name := by
  by_cases hmem : name ∈ m.inputs
  · rcases lookup_equiv h name with ⟨h1, h2⟩ | ⟨a, b, h1, h2, hab⟩
    · rw [contextGet_no_node hmem h1, contextGet_no_node hmem h2]
    · by_cases hsta : a.state = NodeState.started
      · have hstb : b.state = NodeState.started := by
          rw [← hab.2.1]; exact hsta
        cases hwo : a.worker with
        | none =>
          have hwb : b.worker = none := by rw [← hab.2.2.1]; exact hwo
          rw [contextGet_no_worker hmem h1 hsta hwo,
              contextGet_no_worker hmem h2 hstb hwb]
        | some w =>
          have hwb : b.worker = some w := by rw [← hab.2.2.1]; exact hwo
          cases hout : a.manifold.output w with
          | ok v =>
            have houtb : b.manifold.output w = Except.ok v := by
              rw [← hab.1]; exact hout
            rw [contextGet_output_ok hmem h1 hsta hwo hout,
                contextGet_output_ok hmem h2 hstb hwb houtb]
          | error e =>
            have houtb : b.manifold.output w = Except.error e := by
              rw [← hab.1]; exact hout
            rw [contextGet_output_err hmem h1 hsta hwo hout,
                contextGet_output_err hmem h2 hstb hwb houtb]
      · have hstb : ¬ b.state = NodeState.started := by
          rw [← hab.2.1]; exact hsta
        rw [contextGet_not_started hmem h1 hsta,
            contextGet_not_started hmem h2 hstb]
  · rw [contextGet_not_mem (s := s) hmem, contextGet_not_mem (s := t) hmem]

/-- C9: a dependent's observable behaviour is independent of the actual
error values produced by other nodes' start functions and workers: two runs
whose event queues differ only in the error payloads of completion events
yield engine states in which every `Context.Get` observation — the only
channel a dependent has onto a dependency — returns the identical result
(`ErrResourceUnavailable` carries no error value). -/
theorem claim_C9_error_noninterference (evts evts' : List Event)
    (h : List.Forall₂ eventEquiv evts evts') (m : Manifold) (name : String) :
    contextGet (run evts) m name = contextGet (run evts') m name := by
  unfold run
  exact contextGet_equiv
    (run_equiv h ⟨rfl, List.Forall₂.nil⟩) m name

theorem claim_C9_witness :
    contextGet (run (wEvts ++
        [Event.gotStartError "b" 1 3, Event.gotStopped "a" 1 (some 7)]))
        mW1 "a"
      = contextGet (run (wEvts ++
        [Event.gotStartError "b" 1 4, Event.gotStopped "a" 1 (some 8)]))
        mW1 "a" :=
  claim_C9_error_noninterference _ _
    (by simp [wEvts, eventEquiv]) mW1 "a"

end Engine

namespace Backoff

/-- Modelled from the spec: the per-node restart backoff policy (§4.4): a
fixed base delay doubling up to a maximum cap, independent per node, with a
reset to the base delay after the node has remained Started longer than a
threshold.  Durations are abstract time units; the source exposes the base
as the patchable `engine.EngineErrorDelay` (see
`cmd/jujud-controller/agent/machine_test.go`). -/
structure Policy where
  base : Nat
  cap : Nat
  resetThreshold : Nat

/-- Modelled from the spec: `restartDelay p k` is the delay imposed before
the restart attempt following the (k+1)-th consecutive failure: the base
delay for the first failure, then doubling, capped. -/
def restartDelay (p : Policy) : Nat → Nat
  | 0 => p.base
  | k + 1 => min (2 * restartDelay p k) p.cap

/-- Modelled from the spec: once the node has stayed Started longer than the
reset threshold, the backoff state returns to the base delay; otherwise the
accumulated delay is kept. -/
def delayAfterStarted (p : Policy) (startedPeriod current : Nat) : Nat :=
  if p.resetThreshold < startedPeriod then p.base else current

theorem restartDelay_le_cap (p : Policy) (hb : p.base ≤ p.cap) :
    ∀ k, restartDelay p k ≤ p.cap := by
  intro k
  cases k with
  | zero => exact hb
  | succ k => exact Nat.min_le_right _ _

/-- C6: across consecutive failures of a persistently failing node the
restart delays are monotonically non-decreasing, equal at every step to the
base delay doubled per failure and clipped to the cap (hence never above
the cap), and the backoff resets to the base delay after the node has
remained Started longer than the reset threshold. -/
theorem claim_C6_backoff_policy (p : Policy) (hb : p.base ≤ p.cap) :
    (∀ k, restartDelay p k ≤ restartDelay p (k + 1)) ∧
    (∀ k, restartDelay p k ≤ p.cap) ∧
    (∀ k, restartDelay p k = min (p.base * 2 ^ k) p.cap) ∧
    (∀ d dur, p.resetThreshold < dur → delayAfterStarted p dur d = p.base) := by
  refine ⟨?_, restartDelay_le_cap p hb, ?_, ?_⟩
  · intro k
    have hle := restartDelay_le_cap p hb k
    have h2 : restartDelay p k ≤ 2 * restartDelay p k := by omega
    rw [restartDelay]
    exact Nat.le_min.mpr ⟨h2, hle⟩
  · intro k
    induction k with
    | zero =>
      rw [restartDelay]
      simp [Nat.min_eq_left hb]
    | succ k ih =>
      rw [restartDelay, ih]
      rcases Nat.le_total (p.base * 2 ^ k) p.cap with hc | hc
      · rw [Nat.min_eq_left hc]
        have : 2 * (p.base * 2 ^ k) = p.base * 2 ^ (k + 1) := by
          rw [pow_succ]; ring
        rw [this]
      · rw [Nat.min_eq_right hc]
        have h1 : p.cap ≤ 2 * p.cap := by omega
        have h2 : p.cap ≤ p.base * 2 ^ (k + 1) := by
          calc p.cap ≤ p.base * 2 ^ k := hc
            _ ≤ p.base * 2 ^ (k + 1) :=
              Nat.mul_le_mul_left _ (Nat.pow_le_pow_right (by omega) (by omega))
        rw [Nat.min_eq_right h1, Nat.min_eq_right h2]
  · intro d dur hdur
    unfold delayAfterStarted
    rw [if_pos hdur]

theorem claim_C6_witness :
    restartDelay ⟨1, 8, 5⟩ 2 ≤ restartDelay ⟨1, 8, 5⟩ 3 ∧
    restartDelay ⟨1, 8, 5⟩ 4 = min (1 * 2 ^ 4) 8 ∧
    delayAfterStarted ⟨1, 8, 5⟩ 6 8 = 1 :=
  ⟨(claim_C6_backoff_policy ⟨1, 8, 5⟩ (by decide)).1 2,
   (claim_C6_backoff_policy ⟨1, 8, 5⟩ (by decide)).2.2.1 4,
   (claim_C6_backoff_policy ⟨1, 8, 5⟩ (by decide)).2.2.2 8 6 (by decide)⟩

end Backoff

namespace LxdConfig

/-- Embedded from `src/internal/provider/lxd/config.go`: a model config.  Go's
`map[string]interface{}` of unknown (provider-specific) attributes is
modelled as an association list of string-valued attributes — the only LXD
schema field, "project", is of string type. -/
structure Config where
  unknownAttrs : List (String × String)

/-- Embedded from the source: `cfg.UnknownAttrs()` returns the unknown
attribute map. -/
def Config.UnknownAttrs (c : Config) : List (String × String) :=
  c.unknownAttrs

def lookupAttr (attrs : List (String × String)) (k : String) : Option String :=
  (attrs.find? (fun p => decide (p.1 = k))).map Prod.snd

/-- Embedded from the source (`configSchema` / `configFields`,
config.go lines 16-33): the only provider-specific field is "project". -/
def configFields : List String := ["project"]

/-- Embedded from the source (config.go lines 23-25):
`configDefaults = schema.Defaults{"project": "default"}`. -/
def configDefaults : List (String × String) := [("project", "default")]

/-- Embedded from the source (config.go lines 35-38): `environConfig` holds
the wrapped Config and the snapshot of its unknown attrs. -/
structure environConfig where
  cfg : Config
  attrs : List (String × String)

/-- Embedded from the source (config.go lines 42-47): `newConfig` stores
`cfg.UnknownAttrs()` as-is — no defaults are applied here. -/
def newConfig (cfg : Config) : environConfig :=
  ⟨cfg, cfg.UnknownAttrs⟩

/-- Modelled from the spec: `Config.ValidateUnknownAttrs` lives in
`environs/config`, which is not under `src/`; per its use in the source it
coerces each unknown attribute against the schema fields (string values
always coerce to the string field; an attribute without a schema field is
rejected) and returns a NEW map equal to the input with schema defaults
added for missing keys.  It does not mutate the receiver. -/
def ValidateUnknownAttrs (attrs : List (String × String))
    (fields : List String) (defaults : List (String × String)) :
    Except String (List (String × String)) :=
  if attrs.all (fun p => decide (p.1 ∈ fields)) then
    Except.ok (attrs ++
      defaults.filter (fun d => decide (lookupAttr attrs d.1 = none)))
  else
    Except.error "unknown config field"

/-- Embedded from the source (config.go lines 70-77): `validate` runs
`_, err := c.ValidateUnknownAttrs(configFields, configDefaults)` — the
defaults-merged map it returns is DISCARDED; only the error is kept.  There
are no further LXD-specific checks. -/
def environConfig.validate (c : environConfig) : Except String Unit :=
  match ValidateUnknownAttrs c.attrs configFields configDefaults with
  | Except.error e => Except.error e
  | Except.ok _ => Except.ok ()

/-- Embedded from the source (config.go lines 52-67): `newValidConfig` runs
the generic `config.Validate` (external to `src/`, modelled as succeeding),
builds the environConfig with `newConfig` from the ORIGINAL cfg, and then
runs the provider-specific `validate` — whose merged map is discarded, so
the stored attrs are exactly `cfg.UnknownAttrs()`. -/
def newValidConfig (cfg : Config) : Except String environConfig :=
  let ecfg := newConfig cfg
  match ecfg.validate with
  | Except.error e => Except.error e
  | Except.ok _ => Except.ok ecfg

/-- Embedded from the source (config.go lines 79-85): `project` reads the
stored attrs; a missing key yields the empty string. -/
def environConfig.project (c : environConfig) : String :=
  match lookupAttr c.attrs "project" with
  | none => ""
  | some s => s

theorem lookupAttr_append_right (attrs tail : List (String × String))
    (k : String) (h : lookupAttr attrs k = none) :
    lookupAttr (attrs ++ tail) k = lookupAttr tail k := by
  unfold lookupAttr at *
  have hnone : attrs.find? (fun p => decide (p.1 = k)) = none := by
    cases hf : attrs.find? (fun p => decide (p.1 = k)) with
    | none => rfl
    | some p => rw [hf] at h; simp at h
  rw [List.find?_append, hnone]
  simp

/-- C10: for every LXD model config whose unknown attributes contain no
"project" key, the environConfig produced by `newConfig` — and hence by
`newValidConfig`, which stores the same attrs — answers the empty string
from `project()`, not the declared default "default": `validate()` discards
the result of `ValidateUnknownAttrs` (which does contain the folded-in
default), so `configDefaults` is never folded into the stored attrs. -/
theorem claim_C10_project_default_discarded (cfg : Config)
    (hnone : lookupAttr cfg.unknownAttrs "project" = none) :
    (newConfig cfg).project = "" ∧
    (∀ e, newValidConfig cfg = Except.ok e → e.project = "") ∧
    (∀ validated,
      ValidateUnknownAttrs cfg.unknownAttrs configFields configDefaults
          = Except.ok validated →
        lookupAttr validated "project" = some "default") := by
  have hproj : (newConfig cfg).project = "" := by
    unfold environConfig.project newConfig Config.UnknownAttrs
    rw [hnone]
  refine ⟨hproj, ?_, ?_⟩
  · intro e he
    have hrew : newValidConfig cfg
        = match (newConfig cfg).validate with
          | Except.error er => Except.error er
          | Except.ok _ => Except.ok (newConfig cfg) := rfl
    rw [hrew] at he
    cases hv : (newConfig cfg).validate with
    | error er => rw [hv] at he; cases he
    | ok u =>
      rw [hv] at he
      injection he with he
      rw [← he]
      exact hproj
  · intro validated hval
    unfold ValidateUnknownAttrs at hval
    by_cases hall : cfg.unknownAttrs.all (fun p => decide (p.1 ∈ configFields)) = true
    · rw [if_pos hall] at hval
      injection hval with hval
      rw [← hval]
      have hfilter : configDefaults.filter
          (fun d => decide (lookupAttr cfg.unknownAttrs d.1 = none))
          = [("project", "default")] := by
        unfold configDefaults
        rw [List.filter_cons]
        simp only [hnone]
        rfl
      rw [hfilter, lookupAttr_append_right _ _ _ hnone]
      rfl
    · rw [if_neg hall] at hval
      cases hval

theorem claim_C10_witness :
    (newConfig ⟨[("other", "x")]⟩).project = "" ∧
    lookupAttr [("project", "default")] "project" = some "default" :=
  ⟨(claim_C10_project_default_discarded ⟨[("other", "x")]⟩ rfl).1,
   (claim_C10_project_default_discarded ⟨[]⟩ rfl).2.2
     [("project", "default")] rfl⟩

end LxdConfig

end JujuSpec
